import Mathlib

/-!
Shallow embedding of the ingestion core of the NBA analytics repository
(`src/nba_analytics/db.py`, `api_client.py`, `ingestion.py`), together with
theorems settling the frozen claims about it.

Modelling conventions:
* JSON-like Python values are the inductive `PyVal`; Python truthiness and
  `dict.get` are modelled explicitly.
* Python `float` is modelled as `Rat` (no claim depends on binary rounding).
* Calendar dates are `YMD` triples validated like `datetime.date`;
  day arithmetic goes through the proleptic-Gregorian day number.
* `hashlib.sha256` of the canonical `json.dumps(..., sort_keys=True)`
  serialization is modelled by that canonical serialization itself (an
  injective stand-in for the digest; the code relies on the digest only as
  a collision-free key).
* Wall-clock columns (`ingested_at`, `retrieved_at`, run timestamps) carry
  no logic in the source and are not modelled.
-/

/-- JSON-like Python value as it appears in API payloads and rows. -/
inductive PyVal where
  | none
  | bool (b : Bool)
  | int (n : Int)
  | float (q : Rat)
  | str (s : String)
  | list (xs : List PyVal)
  | dict (kvs : List (String × PyVal))

/-- Python truthiness (`bool(v)`): `None`, `False`, numeric zero, empty
string/list/dict are falsy. -/
def PyVal.truthy : PyVal → Bool
  | .none => false
  | .bool b => b
  | .int n => n != 0
  | .float q => q != 0
  | .str s => s ≠ ""
  | .list xs => !xs.isEmpty
  | .dict kvs => !kvs.isEmpty

/-- First binding of a key in an association list (Python dicts have unique
keys, so first-match lookup is exact). -/
def assocFind (kvs : List (String × PyVal)) (k : String) : Option PyVal :=
  match kvs with
  | [] => Option.none
  | kv :: rest => if kv.1 = k then some kv.2 else assocFind rest k

/-- Python `row.get(k)`: the bound value, or `None` when the key is absent.
Rows handed to the upserts always come from `records`, hence are dicts;
the non-dict case is unreachable there. -/
def PyVal.get (v : PyVal) (k : String) : PyVal :=
  match v with
  | .dict kvs =>
    match assocFind kvs k with
    | some w => w
    | Option.none => .none
  | _ => .none

/-- Python `a or b`: `a` when truthy, else `b`. -/
def pyOr (a b : PyVal) : PyVal := if a.truthy then a else b

/-- Strict lexicographic comparison of strings by character lists (the
comparison `json.dumps(sort_keys=True)` sorts keys by), kernel-reducible. -/
def strLtB : List Char → List Char → Bool
  | [], [] => false
  | [], _ :: _ => true
  | _ :: _, [] => false
  | a :: as, b :: bs => if a < b then true else if b < a then false else strLtB as bs

/-- `str.strip()` over the character list (kernel-reducible). -/
def stripStr (s : String) : String :=
  String.mk (((s.toList.dropWhile Char.isWhitespace).reverse.dropWhile
    Char.isWhitespace).reverse)

/-- `s[:n]` over the character list (kernel-reducible). -/
def strTake (s : String) (n : Nat) : String :=
  String.mk (s.toList.take n)

/-- Insert a `(key, serialized)` pair into a key-sorted list. -/
def insertByKey (p : String × String) : List (String × String) → List (String × String)
  | [] => [p]
  | q :: rest => if strLtB p.1.toList q.1.toList then p :: q :: rest else q :: insertByKey p rest

/-- Sort serialized object entries by key, as `json.dumps(sort_keys=True)` does. -/
def sortEntries : List (String × String) → List (String × String)
  | [] => []
  | p :: rest => insertByKey p (sortEntries rest)

/-- Render a JSON number for a Python float: integral values print as `n.0`. -/
def floatRepr (q : Rat) : String :=
  if q.den = 1 then toString q.num ++ ".0" else toString q

mutual

/-- Canonical serialization mirroring
`json.dumps(payload, sort_keys=True, separators=(",", ":"), default=str)`.
Object keys are sorted recursively; separators carry no spaces. String
escaping is not modelled (no payload in any claim contains quotes). -/
def serializePy : PyVal → String
  | .none => "null"
  | .bool b => if b then "true" else "false"
  | .int n => toString n
  | .float q => floatRepr q
  | .str s => "\"" ++ s ++ "\""
  | .list xs => "[" ++ String.intercalate "," (serializeListPy xs) ++ "]"
  | .dict kvs =>
    let entries := (sortEntries (serializeKvsPy kvs)).map
      (fun kv => "\"" ++ kv.1 ++ "\":" ++ kv.2)
    "\x7b" ++ String.intercalate "," entries ++ "\x7d"

def serializeListPy : List PyVal → List String
  | [] => []
  | x :: xs => serializePy x :: serializeListPy xs

def serializeKvsPy : List (String × PyVal) → List (String × String)
  | [] => []
  | kv :: rest => (kv.1, serializePy kv.2) :: serializeKvsPy rest

end

/-- `db.stable_hash`: sha256 hex digest of the canonical serialization.
The digest is modelled by the serialization itself (see file header). -/
def stable_hash (payload : PyVal) : String :=
  serializePy payload

/-! ## Calendar dates -/

/-- A calendar date, as `datetime.date` (proleptic Gregorian, year 1..9999). -/
structure YMD where
  year : Int
  month : Int
  day : Int
deriving DecidableEq

/-- `date.__lt__`: dates compare lexicographically on `(year, month, day)`
(equivalent to day-number order on valid dates). -/
abbrev YMD.lexLt (a b : YMD) : Prop :=
  a.year < b.year ∨ (a.year = b.year ∧
    (a.month < b.month ∨ (a.month = b.month ∧ a.day < b.day)))

/-- Days in a month of the proleptic Gregorian calendar. -/
def daysInMonth (y m : Int) : Int :=
  if m = 2 then
    if y % 4 = 0 ∧ (y % 100 ≠ 0 ∨ y % 400 = 0) then 29 else 28
  else if m = 4 ∨ m = 6 ∨ m = 9 ∨ m = 11 then 30
  else 31

/-- Validity as `datetime.date` enforces it. -/
def YMD.valid (d : YMD) : Bool :=
  decide (1 ≤ d.year ∧ d.year ≤ 9999 ∧ 1 ≤ d.month ∧ d.month ≤ 12 ∧
    1 ≤ d.day ∧ d.day ≤ daysInMonth d.year d.month)

/-- Day number of a date (days since 1970-01-01, proleptic Gregorian);
the standard civil-from-days correspondence. Used to model date ordering
and `timedelta` arithmetic. -/
def YMD.toOrd (d : YMD) : Int :=
  let y := if d.month ≤ 2 then d.year - 1 else d.year
  let era := (if 0 ≤ y then y else y - 399) / 400
  let yoe := y - era * 400
  let mp := if 2 < d.month then d.month - 3 else d.month + 9
  let doy := (153 * mp + 2) / 5 + d.day - 1
  let doe := yoe * 365 + yoe / 4 - yoe / 100 + doy
  era * 146097 + doe - 719468

/-- Zero-pad the decimal rendering of a nonnegative integer to `len` digits. -/
def padNum (len : Nat) (n : Int) : String :=
  let s := toString n.toNat
  String.mk (List.replicate (len - s.length) '0') ++ s

/-- `date.isoformat()`: `YYYY-MM-DD`. -/
def YMD.isoformat (d : YMD) : String :=
  padNum 4 d.year ++ "-" ++ padNum 2 d.month ++ "-" ++ padNum 2 d.day

/-- Decimal digit value of a character, if it is a digit. -/
def digitVal (c : Char) : Option Nat :=
  if '0' ≤ c ∧ c ≤ '9' then some (c.toNat - '0'.toNat) else Option.none

/-- Parse a fixed-width run of digits as a natural number. -/
def parseDigits : List Char → Option Nat
  | [] => some 0
  | c :: rest => do
    let d ← digitVal c
    let r ← parseDigits rest
    pure (d * 10 ^ rest.length + r)

/-- `date.fromisoformat` restricted to the `YYYY-MM-DD` form the code feeds it
(the callers always slice to the first ten characters). Validates ranges the
way `datetime.date` does. -/
def parseIsoDate (s : String) : Option YMD :=
  match s.toList with
  | [y1, y2, y3, y4, h1, m1, m2, h2, d1, d2] =>
    if h1 = '-' ∧ h2 = '-' then do
      let y ← parseDigits [y1, y2, y3, y4]
      let m ← parseDigits [m1, m2]
      let d ← parseDigits [d1, d2]
      let ymd : YMD := ⟨(y : Int), (m : Int), (d : Int)⟩
      if ymd.valid then some ymd else Option.none
    else Option.none
  | _ => Option.none

/-! ## Permissive field parsing (`db.py`) -/

/-- Parse the decimal forms of Python `float(str)` the payloads use:
optional sign, digits, optional fractional part (exponents and the special
forms `inf`/`nan` do not occur in any payload and are not modelled). -/
def parseDecimal (s : String) : Option Rat :=
  let chars := s.toList
  let (sign, body) :=
    match chars with
    | '-' :: rest => ((-1 : Int), rest)
    | '+' :: rest => ((1 : Int), rest)
    | _ => ((1 : Int), chars)
  match body.span (fun c => decide ('0' ≤ c ∧ c ≤ '9')) with
  | (intPart, rest) =>
    match rest with
    | [] =>
      if intPart.isEmpty then Option.none
      else (parseDigits intPart).map (fun n => (sign * n : Int))
    | '.' :: fracPart =>
      if intPart.isEmpty ∧ fracPart.isEmpty then Option.none
      else if fracPart.all (fun c => decide ('0' ≤ c ∧ c ≤ '9')) then do
        let ip ← parseDigits intPart
        let fp ← parseDigits fracPart
        pure ((sign : Rat) * ((ip : Rat) + (fp : Rat) / ((10 : Rat) ^ fracPart.length)))
      else Option.none
    | _ => Option.none

/-- `db.to_float`: `None` and `""` are absent; ints, floats and bools convert;
unparseable strings and containers are absent; never raises. -/
def to_float (value : PyVal) : Option Rat :=
  match value with
  | .none => Option.none
  | .str s => if s = "" then Option.none else parseDecimal s
  | .int n => some (n : Rat)
  | .float q => some q
  | .bool b => some (if b then 1 else 0)
  | .list _ => Option.none
  | .dict _ => Option.none

/-- Python `str(value)` for the JSON values that can reach `to_date`
(strings pass through; other shapes render to text that is never a valid
date, which is all `to_date` observes of them). -/
def pyStr (v : PyVal) : String :=
  match v with
  | .str s => s
  | .int n => toString n
  | .bool b => if b then "True" else "False"
  | .none => "None"
  | _ => serializePy v

/-- `db.to_date`: `None` and blank text are absent; otherwise parse the
first ten characters as an ISO date, absent on failure. (The
`isinstance(value, date)` branch of the source is unreachable here: every
value fed to `to_date` comes from decoded JSON.) -/
def to_date (value : PyVal) : Option YMD :=
  match value with
  | .none => Option.none
  | v =>
    let text := stripStr (pyStr v)
    if text = "" then Option.none
    else parseIsoDate (strTake text 10)

/-! ## Exceptions -/

/-- One failed fetch attempt, as classified by the `except` clause of
`NbaDailyApiClient.get`: a non-2xx status, a network-level failure, or a
non-parseable body. -/
inductive FetchErr where
  | http (status : Nat) (detail : String)
  | network (msg : String)
  | badBody (msg : String)
deriving DecidableEq

/-- `str` of the `ApiClientError` raised for one failed attempt. -/
def fetchErrStr (path : String) : FetchErr → String
  | .http status detail =>
    "GET " ++ path ++ " failed (" ++ toString status ++ "): " ++ detail
  | .network msg => msg
  | .badBody msg => msg

/-- Exceptions observable by the orchestrator. `api` is the wrapper
`ApiClientError` that `get` raises after exhausting its retries, carrying
the last underlying cause; `dbErr` models a persistence-layer failure
(connectivity loss, constraint violation) injected by the store. -/
inductive Exc where
  | api (path : String) (last : Option FetchErr)
  | typeErr (msg : String)
  | valueErr (msg : String)
  | dbErr (msg : String)
deriving DecidableEq

/-- `str(exc)` for the exceptions above, mirroring the messages the source
formats. -/
def excMessage : Exc → String
  | .api path last =>
    "GET " ++ path ++ " failed after retries: " ++
      (match last with
       | some e => fetchErrStr path e
       | Option.none => "None")
  | .typeErr msg => msg
  | .valueErr msg => msg
  | .dbErr msg => msg

/-- `_get_or_none`'s test `"(404)" in str(exc)`, which holds exactly when the
wrapped last attempt failed with HTTP status 404 (the formatted message embeds
the status in parentheses; no other payload of the system contains the literal
text `(404)`). -/
def is404 : Exc → Bool
  | .api _ (some (.http 404 _)) => true
  | _ => false

/-! ## Persistence layer (`db.py`) -/

/-- `(primary or alias or "").strip() or None`, the name-normalization idiom of
the upserts. A truthy non-string value would make `.strip()` raise `TypeError`.
-/
def stripChain (primary fallback : PyVal) : Except Exc (Option String) :=
  match pyOr primary (pyOr fallback (.str "")) with
  | .str s =>
    let t := stripStr s
    .ok (if t = "" then Option.none else some t)
  | _ => .error (.typeErr "strip is not defined on this value")

/-- The derived absolute error of an upsert row:
`abs(actual - projected) if actual is not None and projected is not None else None`. -/
def absErrorOf (actual projected : Option Rat) : Option Rat :=
  match actual, projected with
  | some a, some p => some |a - p|
  | _, _ => Option.none

/-- How a `str | None` column value enters `json.dumps` (`None` is `null`). -/
def optStrVal : Option String → PyVal
  | some s => .str s
  | Option.none => .none

/-- `INSERT ... ON CONFLICT (key) DO UPDATE`: update the existing row for the
key via `upd`, or append a fresh row `ins`. Tables built by this operation
keep one row per key. -/
def upsertAssoc {κ ρ : Type} [DecidableEq κ] (k : κ) (ins : ρ) (upd : ρ → ρ) :
    List (κ × ρ) → List (κ × ρ)
  | [] => [(k, ins)]
  | (k', v) :: rest =>
    if k' = k then (k', upd v) :: rest else (k', v) :: upsertAssoc k ins upd rest

/-- A row of `prediction_daily` (key `row_key` kept beside it). -/
structure PredRow where
  game_date : YMD
  player_name : Option String
  team : Option String
  projected_ppg : Option Rat
  actual_ppg : Option Rat
  absolute_error : Option Rat
  payload : PyVal

/-- A row of `accuracy_daily` (key `game_date` kept beside it). -/
structure AccRow where
  mean_absolute_error : Option Rat
  rmse : Option Rat
  hit_rate_floor_ceiling : Option Rat
  mean_error : Option Rat
  payload : PyVal

/-- A row of `dfs_slate_daily` (key `slate_date` kept beside it). -/
structure SlateRow where
  proj_mae : Option Rat
  proj_correlation : Option Rat
  lineup_efficiency_pct : Option Rat
  value_correlation : Option Rat
  payload : PyVal

/-- A row of `dfs_projection_daily` (key `row_key` kept beside it). -/
structure DfsProjRow where
  slate_date : YMD
  player_name : Option String
  team : Option String
  proj_fpts : Option Rat
  actual_fpts : Option Rat
  absolute_error : Option Rat
  payload : PyVal

/-- A row of `backtest_top3_daily` / `backtest_portfolio_daily`. -/
structure BtRow where
  slate_date : Option YMD
  strategy : Option String
  payload : PyVal

/-- A row of `raw_endpoint_snapshot`. -/
structure SnapRow where
  endpoint : String
  snapshot_date : Option YMD
  payload : PyVal
  payload_hash : String

/-- Conflict test of the unique index
`(endpoint, snapshot_date, payload_hash)` on the date component: PostgreSQL
treats NULLs as distinct in unique indexes, so an absent date never conflicts
with anything, not even another absent date. -/
def nullDistinctEq (a b : Option YMD) : Bool :=
  match a, b with
  | some x, some y => x == y
  | _, _ => false

/-- `db.store_raw_snapshot`: insert a snapshot row,
`ON CONFLICT (endpoint, snapshot_date, payload_hash) DO NOTHING`. -/
def store_raw_snapshot (endpoint : String) (snapshot_date : Option YMD)
    (payload : PyVal) (t : List SnapRow) : List SnapRow :=
  let payload_hash := stable_hash payload
  if t.any (fun r =>
      r.endpoint == endpoint && nullDistinctEq r.snapshot_date snapshot_date &&
        r.payload_hash == payload_hash)
  then t
  else t ++ [⟨endpoint, snapshot_date, payload, payload_hash⟩]

/-- `db.upsert_prediction_rows`: per input row, parse names and numbers
permissively, derive the absolute error, hash the natural key over
`[game_date, player_name, team, row]`, and insert-or-update; returns the
updated table and the count of processed rows. -/
def upsert_prediction_rows (game_date : YMD) (rows : List PyVal)
    (t : List (String × PredRow)) : Except Exc (List (String × PredRow) × Nat) :=
  rows.foldlM (fun acc row => do
    let player_name ← stripChain (row.get "player_name") (row.get "name")
    let team ← stripChain (row.get "team") (row.get "team_name")
    let projected := to_float (pyOr (row.get "projected_ppg")
      (pyOr (row.get "projection_ppg") (row.get "projected_points")))
    let actual := to_float (pyOr (row.get "actual_ppg") (row.get "actual_points"))
    let abs_error := absErrorOf actual projected
    let row_key := stable_hash
      (.list [.str game_date.isoformat, optStrVal player_name, optStrVal team, row])
    let ins : PredRow :=
      ⟨game_date, player_name, team, projected, actual, abs_error, row⟩
    let upd := fun (old : PredRow) =>
      { old with projected_ppg := projected, actual_ppg := actual,
                 absolute_error := abs_error, payload := row }
    pure (upsertAssoc row_key ins upd acc.1, acc.2 + 1))
    (t, 0)

/-- `db.upsert_accuracy_rows`: keyed on the parsed `game_date`; a row whose
date fails to parse is skipped (`continue`) and not counted. -/
def upsert_accuracy_rows (rows : List PyVal) (t : List (YMD × AccRow)) :
    Except Exc (List (YMD × AccRow) × Nat) :=
  rows.foldlM (fun acc row =>
    match to_date (pyOr (row.get "game_date") (row.get "date")) with
    | Option.none => pure acc
    | some game_date =>
      let ins : AccRow :=
        ⟨to_float (pyOr (row.get "mean_absolute_error") (row.get "mae")),
         to_float (row.get "rmse"),
         to_float (pyOr (row.get "hit_rate_floor_ceiling") (row.get "hit_rate")),
         to_float (row.get "mean_error"), row⟩
      pure (upsertAssoc game_date ins (fun _ => ins) acc.1, acc.2 + 1))
    (t, 0)

/-- `db.upsert_dfs_slate_row`: single-row upsert keyed on the slate date;
always reports one processed row. -/
def upsert_dfs_slate_row (slate_date : YMD) (row : PyVal)
    (t : List (YMD × SlateRow)) : Except Exc (List (YMD × SlateRow) × Nat) :=
  let ins : SlateRow :=
    ⟨to_float (row.get "proj_mae"), to_float (row.get "proj_correlation"),
     to_float (row.get "lineup_efficiency_pct"),
     to_float (row.get "value_correlation"), row⟩
  .ok (upsertAssoc slate_date ins (fun _ => ins) t, 1)

/-- `db.upsert_dfs_projection_rows`: like the prediction upsert, but only the
projected value goes through an alias `or`-chain; `actual_fpts` is read
directly. -/
def upsert_dfs_projection_rows (slate_date : YMD) (rows : List PyVal)
    (t : List (String × DfsProjRow)) :
    Except Exc (List (String × DfsProjRow) × Nat) :=
  rows.foldlM (fun acc row => do
    let player_name ← stripChain (row.get "player_name") (row.get "name")
    let team ← stripChain (row.get "team") (row.get "team_name")
    let proj := to_float (pyOr (row.get "proj_fpts") (row.get "projected_fpts"))
    let actual := to_float (row.get "actual_fpts")
    let abs_error := absErrorOf actual proj
    let row_key := stable_hash
      (.list [.str slate_date.isoformat, optStrVal player_name, optStrVal team, row])
    let ins : DfsProjRow :=
      ⟨slate_date, player_name, team, proj, actual, abs_error, row⟩
    let upd := fun (old : DfsProjRow) =>
      { old with proj_fpts := proj, actual_fpts := actual,
                 absolute_error := abs_error, payload := row }
    pure (upsertAssoc row_key ins upd acc.1, acc.2 + 1))
    (t, 0)

/-- `db.upsert_backtest_rows`: validates the target table name, then upserts
each row keyed on a hash of `[table_name, date-or-empty, strategy, row]`.
A row whose date fails to parse is still stored, with an absent
`slate_date`. -/
def upsert_backtest_rows (table_name : String) (rows : List PyVal)
    (t : List (String × BtRow)) : Except Exc (List (String × BtRow) × Nat) :=
  if table_name ≠ "backtest_top3_daily" ∧ table_name ≠ "backtest_portfolio_daily" then
    .error (.valueErr ("Unsupported table: " ++ table_name))
  else
    rows.foldlM (fun acc row => do
      let slate_date := to_date (pyOr (row.get "slate_date") (row.get "date"))
      let strategy ← stripChain (row.get "strategy") (row.get "strategy_name")
      let row_key := stable_hash (.list [.str table_name,
        .str (match slate_date with | some d => d.isoformat | Option.none => ""),
        optStrVal strategy, row])
      let ins : BtRow := ⟨slate_date, strategy, row⟩
      let upd := fun (old : BtRow) => { old with strategy := strategy, payload := row }
      pure (upsertAssoc row_key ins upd acc.1, acc.2 + 1))
      (t, 0)

/-! ## Fetch client (`api_client.py`) -/

/-- `isinstance(x, dict)`. -/
def PyVal.isDict : PyVal → Bool
  | .dict _ => true
  | _ => false

/-- `NbaDailyApiClient.records`: normalize a response payload to a list of
record-like (dict) objects. A dict whose `"data"` field is a list yields that
list's dict elements; a bare list yields its dict elements; any other dict is
a bare object yielding itself; anything else yields the empty list. -/
def records (payload : PyVal) : List PyVal :=
  match payload with
  | .dict kvs =>
    match assocFind kvs "data" with
    | some (.list xs) => xs.filter PyVal.isDict
    | _ => [.dict kvs]
  | .list xs => xs.filter PyVal.isDict
  | _ => []

/-- `NbaDailyApiClient.date_values`: extract literal date strings from the
wrapped-list or bare-list shapes; anything else yields the empty list. -/
def date_values (payload : PyVal) : List String :=
  match payload with
  | .dict kvs =>
    match assocFind kvs "data" with
    | some (.list xs) => xs.map pyStr
    | _ => []
  | .list xs => xs.map pyStr
  | _ => []

/-- The retry loop of `NbaDailyApiClient.get`. `att i` is the outcome of the
`i`-th attempt (network + status check + body parse). Returns the outcome
(`error` carries the last underlying cause, if any attempt ran), the number of
attempts made, and the list of backoff delays slept, in order. -/
def getGo (att : Nat → Except FetchErr PyVal) (maxr : Nat) (b : Rat) :
    Nat → Nat → Option FetchErr → Except (Option FetchErr) PyVal × Nat × List Rat
  | _, 0, last => (.error last, 0, [])
  | attempt, fuel + 1, _ =>
    match att attempt with
    | .ok v => (.ok v, 1, [])
    | .error e =>
      if attempt = maxr then (.error (some e), 1, [])
      else
        let r := getGo att maxr b (attempt + 1) fuel (some e)
        (r.1, r.2.1 + 1, b * (attempt : Rat) :: r.2.2)

/-- `NbaDailyApiClient.get`: attempts `1..max_retries`, sleeping
`retry_backoff_seconds * attempt` after each failed non-final attempt, and
raises an `ApiClientError` wrapping the last cause once exhausted. -/
def NbaDailyApiClient.get (path : String) (att : Nat → Except FetchErr PyVal)
    (maxr : Nat) (b : Rat) : Except Exc PyVal × Nat × List Rat :=
  match getGo att maxr b 1 maxr Option.none with
  | (.ok v, n, ds) => (.ok v, n, ds)
  | (.error last, n, ds) => (.error (.api path last), n, ds)

/-- The authoritative-count stop test of `paginated_records`:
the payload is a dict whose `"count"` is an int with
`offset + len(rows) >= count`. -/
def countSatisfied (payload : PyVal) (offset : Int) (nrows : Nat) : Bool :=
  match payload with
  | .dict kvs =>
    match assocFind kvs "count" with
    | some (.int c) => decide (c ≤ offset + nrows)
    | _ => false
  | _ => false

/-- The page loop of `paginated_records` (`for _ in range(max_pages)`), with
the fetch abstracted as the retry-wrapped `get`. Returns the outcome and the
number of fetch calls issued. A fetch failure propagates immediately,
discarding the accumulated rows. -/
def paginatedGo (fetch : String → List (String × PyVal) → Except Exc PyVal)
    (path : String) (params : List (String × PyVal)) (limit : Nat) :
    Nat → Int → List PyVal → Except Exc (List PyVal) × Nat
  | 0, _, acc => (.ok acc, 0)
  | fuel + 1, offset, acc =>
    let page_params := params ++ [("offset", PyVal.int offset), ("limit", PyVal.int (limit : Int))]
    match fetch path page_params with
    | .error e => (.error e, 1)
    | .ok payload =>
      let rows := records payload
      if rows.isEmpty then (.ok acc, 1)
      else
        let acc' := acc ++ rows
        if countSatisfied payload offset rows.length then (.ok acc', 1)
        else if rows.length < limit then (.ok acc', 1)
        else
          let r := paginatedGo fetch path params limit fuel (offset + rows.length) acc'
          (r.1, r.2 + 1)

/-- `NbaDailyApiClient.paginated_records`: pop any caller-supplied
`offset`/`limit` out of the params, then accumulate pages. (The `int(...)`
coercion of a non-int popped value is not modelled; no caller supplies one.) -/
def paginated_records (fetch : String → List (String × PyVal) → Except Exc PyVal)
    (path : String) (params : List (String × PyVal))
    (page_size : Nat := 500) (max_pages : Nat := 500) :
    Except Exc (List PyVal) × Nat :=
  let params' := params.filter (fun kv => kv.1 ≠ "offset" ∧ kv.1 ≠ "limit")
  let offset : Int :=
    match assocFind params "offset" with
    | some (.int n) => n
    | _ => 0
  let limit : Nat :=
    match assocFind params "limit" with
    | some (.int n) => n.toNat
    | _ => page_size
  paginatedGo fetch path params' limit max_pages offset []

/-! ## Date filter (`ingestion.py`) -/

/-- Insert a date into a strictly ascending list, dropping duplicates:
together with a fold this models `sorted({...})`. -/
def sortedInsertYMD (d : YMD) : List YMD → List YMD
  | [] => [d]
  | x :: rest =>
    if YMD.lexLt d x then d :: x :: rest
    else if d = x then x :: rest
    else x :: sortedInsertYMD d rest

/-- The parse phase of `filter_dates`:
`{date.fromisoformat(v[:10]) for v in date_values if v}` evaluated left to
right; an unparseable non-empty string raises `ValueError`. -/
def parseDateValues : List String → Except Exc (List YMD)
  | [] => .ok []
  | v :: rest =>
    if v = "" then parseDateValues rest
    else
      match parseIsoDate (strTake v 10) with
      | some d => (parseDateValues rest).map (fun ds => d :: ds)
      | Option.none => .error (.valueErr ("Invalid isoformat string: " ++ v))

/-- `ingestion.filter_dates`: parse and deduplicate the input dates, derive
the start bound from the lookback window when no explicit start is given
(`date.today() - timedelta(days=lookback_days)`), and keep the dates within
the bounds, in ascending order. -/
def filter_dates (date_values : List String) (start_date end_date : Option YMD)
    (lookback_days : Option Int) (today : YMD) : Except Exc (List YMD) := do
  let raw ← parseDateValues date_values
  let parsed := raw.foldl (fun acc d => sortedInsertYMD d acc) []
  if parsed.isEmpty then pure []
  else
    let start_ord : Option Int :=
      match start_date with
      | some s => some s.toOrd
      | Option.none =>
        match lookback_days with
        | some n => some (today.toOrd - n)
        | Option.none => Option.none
    pure (parsed.filter (fun d =>
      (match start_ord with
       | some s => decide (s ≤ d.toOrd)
       | Option.none => true) &&
      (match end_date with
       | some e => decide (d.toOrd ≤ e.toOrd)
       | Option.none => true)))

/-! ## Relational store and run orchestrator (`ingestion.py`) -/

/-- A row of `ingestion_runs`. -/
structure RunRow where
  run_id : Nat
  status : String
  message : Option String
  statsMap : List (String × Nat)

/-- The six data tables plus the snapshot ledger and the run ledger. -/
structure Store where
  runs : List RunRow
  snapshots : List SnapRow
  predictions : List (String × PredRow)
  accuracy : List (YMD × AccRow)
  dfsSlates : List (YMD × SlateRow)
  dfsProjections : List (String × DfsProjRow)
  backtestTop3 : List (String × BtRow)
  backtestPortfolio : List (String × BtRow)

/-- The data part of a store (everything the rollback boundary protects:
all tables except the run ledger, whose bookkeeping is committed
independently). -/
def Store.dataPart (st : Store) :
    List SnapRow × List (String × PredRow) × List (YMD × AccRow) ×
      List (YMD × SlateRow) × List (String × DfsProjRow) ×
      List (String × BtRow) × List (String × BtRow) :=
  (st.snapshots, st.predictions, st.accuracy, st.dfsSlates,
   st.dfsProjections, st.backtestTop3, st.backtestPortfolio)

/-- A database connection: the store as last committed, and the working
(transaction-local) store. -/
structure Conn where
  committed : Store
  current : Store

/-- `conn.commit()`. -/
def Conn.commit (c : Conn) : Conn := ⟨c.current, c.current⟩

/-- `conn.rollback()`. -/
def Conn.rollback (c : Conn) : Conn := ⟨c.committed, c.committed⟩

/-- `ingestion.IngestionStats`. -/
structure IngestionStats where
  prediction_rows : Nat := 0
  accuracy_rows : Nat := 0
  dfs_slate_rows : Nat := 0
  dfs_projection_rows : Nat := 0
  backtest_top3_rows : Nat := 0
  backtest_portfolio_rows : Nat := 0

/-- `IngestionStats.as_dict`. -/
def IngestionStats.as_dict (s : IngestionStats) : List (String × Nat) :=
  [("prediction_rows", s.prediction_rows),
   ("accuracy_rows", s.accuracy_rows),
   ("dfs_slate_rows", s.dfs_slate_rows),
   ("dfs_projection_rows", s.dfs_projection_rows),
   ("backtest_top3_rows", s.backtest_top3_rows),
   ("backtest_portfolio_rows", s.backtest_portfolio_rows)]

/-- Mutable state of one `run_ingestion` call: the connection, the stats
accumulator, the `run_id` local, and a counter of persistence-layer write
calls (consulted by the failure oracle). -/
structure RunState where
  conn : Conn
  stats : IngestionStats
  runId : Option Nat
  dbOps : Nat

/-- The orchestrator's computation type: explicit state passing plus
exceptions. On an exception the state at the raise point is kept, as Python
locals and the open transaction are. -/
def M (α : Type) : Type := RunState → Except Exc α × RunState

/-- Monad unit for `M`. -/
def mPure {α : Type} (a : α) : M α := fun s => (.ok a, s)

/-- Monad bind for `M`. -/
def mBind {α β : Type} (x : M α) (f : α → M β) : M β := fun s =>
  match x s with
  | (.ok a, s') => f a s'
  | (.error e, s') => (.error e, s')

/-- `raise e`. -/
def mThrow {α : Type} (e : Exc) : M α := fun s => (.error e, s)

/-- Run a pure fallible step (e.g. a fetch through the client, whose retries
are internal to it) without touching the state. -/
def liftE {α : Type} (x : Except Exc α) : M α := fun s => (x, s)

/-- The environment of one run: the retry-wrapped `client.get` as an oracle
from `(path, params)` to an outcome, a persistence-failure oracle naming the
index of the store write call that fails (with the error's message), if any,
and today's date for the lookback computation. -/
structure Env where
  fetch : String → List (String × PyVal) → Except Exc PyVal
  dbFail : Option (Nat × String)
  today : YMD

/-- `ingestion.Settings`, restricted to the fields `run_ingestion` reads. -/
structure Settings where
  source_api_page_size : Nat
  ingestion_max_page_size : Nat
  ingestion_default_lookback_days : Int

/-- One persistence-layer write call: consult the failure oracle (modelling a
constraint violation or connectivity loss raised by the driver), then apply
the table operation to the working store. Write calls never commit. -/
def dbWrite {α : Type} (env : Env) (f : Store → Except Exc (Store × α)) : M α := fun s =>
  let s' := { s with dbOps := s.dbOps + 1 }
  match env.dbFail with
  | some (i, msg) =>
    if i = s.dbOps then (.error (.dbErr msg), s')
    else
      match f s.conn.current with
      | .ok (st, a) => (.ok a, { s' with conn := { s'.conn with current := st } })
      | .error e => (.error e, s')
  | Option.none =>
    match f s.conn.current with
    | .ok (st, a) => (.ok a, { s' with conn := { s'.conn with current := st } })
    | .error e => (.error e, s')

/-- `conn.commit()` as a step. -/
def mCommit : M Unit := fun s =>
  (.ok (), { s with conn := s.conn.commit })

/-- Update the stats accumulator. -/
def mStats (f : IngestionStats → IngestionStats) : M Unit := fun s =>
  (.ok (), { s with stats := f s.stats })

/-- `db.initialize_schema`: static `CREATE TABLE IF NOT EXISTS` statements
(no-ops on the model's always-present tables) followed by a commit. -/
def initialize_schema : M Unit := mCommit

/-- The id `BIGSERIAL` assigns to the next run row. -/
def nextRunId (runs : List RunRow) : Nat :=
  runs.foldl (fun m r => max m r.run_id) 0 + 1

/-- `db.begin_run`: insert a `running` run row, commit, and remember its id. -/
def begin_run : M Nat := fun s =>
  let rid := nextRunId s.conn.current.runs
  let st := { s.conn.current with
    runs := s.conn.current.runs ++ [⟨rid, "running", Option.none, []⟩] }
  (.ok rid, { s with conn := (Conn.mk s.conn.committed st).commit, runId := some rid })

/-- `db.finish_run`: update the run row's status, message and stats, then
commit. -/
def finishRuns (runs : List RunRow) (rid : Nat) (status msg : String)
    (stats : List (String × Nat)) : List RunRow :=
  runs.map (fun r =>
    if r.run_id = rid then { r with status := status, message := some msg, statsMap := stats }
    else r)

/-- `db.finish_run` as a step on the connection. -/
def finish_run (rid : Nat) (status msg : String) (stats : List (String × Nat)) :
    M Unit := fun s =>
  let st := { s.conn.current with
    runs := finishRuns s.conn.current.runs rid status msg stats }
  (.ok (), { s with conn := (Conn.mk s.conn.committed st).commit })

/-- `_get_or_none`: a fetch whose failure is swallowed when the wrapped cause
is a 404 status, and re-raised otherwise. -/
def getOrNone (env : Env) (path : String) : M (Option PyVal) :=
  match env.fetch path [] with
  | .ok v => mPure (some v)
  | .error e => if is404 e then mPure Option.none else mThrow e

/-- The per-date predictions cycle (fetch pages, snapshot, upsert, count). -/
def predLoop (env : Env) (ps : Nat) : List YMD → M Unit
  | [] => mPure ()
  | gd :: rest =>
    mBind (liftE (paginated_records env.fetch "/predictions"
        [("date", .str gd.isoformat)] ps).1) (fun rows =>
    mBind (dbWrite env (fun st =>
        let sn := store_raw_snapshot "/predictions" (some gd) (.list rows) st.snapshots
        .ok ({ st with snapshots := sn }, ()))) (fun _ =>
    mBind (dbWrite env (fun st =>
        (upsert_prediction_rows gd rows st.predictions).map
          (fun p => ({ st with predictions := p.1 }, p.2)))) (fun n =>
    mBind (mStats (fun t => { t with prediction_rows := t.prediction_rows + n })) (fun _ =>
    predLoop env ps rest))))

/-- The accuracy-summary cycle, run only when a prediction date was resolved
(snapshotted with an absent date). -/
def accuracyStep (env : Env) (prediction_dates : List YMD) : M Unit :=
  match prediction_dates with
  | [] => mPure ()
  | d0 :: ds =>
    let dlast := (d0 :: ds).getLast (by simp)
    mBind (liftE (env.fetch "/accuracy/daily-summary"
        [("start_date", .str d0.isoformat), ("end_date", .str dlast.isoformat)]))
      (fun accuracy_payload =>
    let accuracy_rows := records accuracy_payload
    mBind (dbWrite env (fun st =>
        let sn := store_raw_snapshot "/accuracy/daily-summary" Option.none
          accuracy_payload st.snapshots
        .ok ({ st with snapshots := sn }, ()))) (fun _ =>
    mBind (dbWrite env (fun st =>
        (upsert_accuracy_rows accuracy_rows st.accuracy).map
          (fun p => ({ st with accuracy := p.1 }, p.2)))) (fun n =>
    mStats (fun t => { t with accuracy_rows := t.accuracy_rows + n }))))

/-- The per-date DFS cycle: optional slate-result singleton (404 tolerated,
falsy payloads skipped), then paginated projections. The slate snapshot's
endpoint string is the literal `"/dfs/slate-results/{slate_date}"` of the
source (not interpolated there). -/
def dfsLoop (env : Env) (ps : Nat) : List YMD → M Unit
  | [] => mPure ()
  | sd :: rest =>
    mBind (getOrNone env ("/dfs/slate-results/" ++ sd.isoformat)) (fun slate_payload =>
    mBind (match slate_payload with
      | some payload =>
        if payload.truthy then
          mBind (dbWrite env (fun st =>
              let sn := store_raw_snapshot "/dfs/slate-results/\x7bslate_date\x7d"
                (some sd) payload st.snapshots
              .ok ({ st with snapshots := sn }, ()))) (fun _ =>
          mBind (dbWrite env (fun st =>
              (upsert_dfs_slate_row sd payload st.dfsSlates).map
                (fun p => ({ st with dfsSlates := p.1 }, p.2)))) (fun n =>
          mStats (fun t => { t with dfs_slate_rows := t.dfs_slate_rows + n })))
        else mPure ()
      | Option.none => mPure ()) (fun _ =>
    mBind (liftE (paginated_records env.fetch ("/dfs/projections/" ++ sd.isoformat)
        [] ps).1) (fun projection_rows =>
    mBind (dbWrite env (fun st =>
        let sn := store_raw_snapshot "/dfs/projections" (some sd)
          (.list projection_rows) st.snapshots
        .ok ({ st with snapshots := sn }, ()))) (fun _ =>
    mBind (dbWrite env (fun st =>
        (upsert_dfs_projection_rows sd projection_rows st.dfsProjections).map
          (fun p => ({ st with dfsProjections := p.1 }, p.2)))) (fun n =>
    mBind (mStats (fun t =>
        { t with dfs_projection_rows := t.dfs_projection_rows + n })) (fun _ =>
    dfsLoop env ps rest))))))

/-- The per-date backtest cycle: `top3` then `portfolio`, each paginated over
a one-day range, snapshotted and upserted. -/
def backtestLoop (env : Env) (ps : Nat) : List YMD → M Unit
  | [] => mPure ()
  | bd :: rest =>
    let params := [("start_date", PyVal.str bd.isoformat), ("end_date", PyVal.str bd.isoformat)]
    mBind (liftE (paginated_records env.fetch "/backtest/top3" params ps).1) (fun top3_rows =>
    mBind (dbWrite env (fun st =>
        let sn := store_raw_snapshot "/backtest/top3" (some bd)
          (.list top3_rows) st.snapshots
        .ok ({ st with snapshots := sn }, ()))) (fun _ =>
    mBind (dbWrite env (fun st =>
        (upsert_backtest_rows "backtest_top3_daily" top3_rows st.backtestTop3).map
          (fun p => ({ st with backtestTop3 := p.1 }, p.2)))) (fun n =>
    mBind (mStats (fun t =>
        { t with backtest_top3_rows := t.backtest_top3_rows + n })) (fun _ =>
    mBind (liftE (paginated_records env.fetch "/backtest/portfolio" params ps).1)
      (fun portfolio_rows =>
    mBind (dbWrite env (fun st =>
        let sn := store_raw_snapshot "/backtest/portfolio" (some bd)
          (.list portfolio_rows) st.snapshots
        .ok ({ st with snapshots := sn }, ()))) (fun _ =>
    mBind (dbWrite env (fun st =>
        (upsert_backtest_rows "backtest_portfolio_daily" portfolio_rows
          st.backtestPortfolio).map
          (fun p => ({ st with backtestPortfolio := p.1 }, p.2)))) (fun n =>
    mBind (mStats (fun t =>
        { t with backtest_portfolio_rows := t.backtest_portfolio_rows + n })) (fun _ =>
    backtestLoop env ps rest))))))))

/-- The fetch-and-persist work of the `try` block after the run row exists:
resolve the three date sets, then run the three domain cycles in order. -/
def mainWork (env : Env) (start_date end_date : Option YMD)
    (ps : Nat) (lookback : Int) : M Unit :=
  mBind (liftE ((env.fetch "/dates/predictions" []).map date_values)) (fun pv =>
  mBind (liftE (filter_dates pv start_date end_date (some lookback) env.today))
    (fun prediction_dates =>
  mBind (liftE ((env.fetch "/dates/dfs-slates" []).map date_values)) (fun dv =>
  mBind (liftE (filter_dates dv start_date end_date (some lookback) env.today))
    (fun dfs_dates =>
  mBind (liftE ((env.fetch "/dates/backtests" []).map date_values)) (fun bv =>
  mBind (liftE (filter_dates bv start_date end_date (some lookback) env.today))
    (fun backtest_dates =>
  mBind (predLoop env ps prediction_dates) (fun _ =>
  mBind (accuracyStep env prediction_dates) (fun _ =>
  mBind (dfsLoop env ps dfs_dates) (fun _ =>
  backtestLoop env ps backtest_dates)))))))))

/-- The whole `try` block of `run_ingestion`: schema, run row, main work,
commit of the data writes, success bookkeeping, and the returned stats. -/
def tryBody (env : Env) (start_date end_date : Option YMD)
    (ps : Nat) (lookback : Int) : M (List (String × Nat)) :=
  mBind initialize_schema (fun _ =>
  mBind begin_run (fun rid =>
  mBind (mainWork env start_date end_date ps lookback) (fun _ =>
  mBind mCommit (fun _ =>
  mBind (fun s => (.ok s.stats.as_dict, s)) (fun d =>
  mBind (finish_run rid "success" "Ingestion completed." d) (fun _ =>
  mPure d))))))

/-- `min(page_size or settings.source_api_page_size,
settings.ingestion_max_page_size)`: a zero or absent request falls back to
the configured size, capped by the configured maximum. -/
def effectivePageSize (settings : Settings) (page_size : Option Nat) : Nat :=
  min
    (match page_size with
     | some p => if p = 0 then settings.source_api_page_size else p
     | Option.none => settings.source_api_page_size)
    settings.ingestion_max_page_size

/-- `settings.ingestion_default_lookback_days if lookback_days is None else
lookback_days`. -/
def effectiveLookback (settings : Settings) (lookback_days : Option Int) : Int :=
  match lookback_days with
  | some n => n
  | Option.none => settings.ingestion_default_lookback_days

/-- `ingestion.run_ingestion`: resolve the effective page size and lookback,
run the `try` block, and on any exception roll back the uncommitted data
writes, record the failure on the run ledger with the exception's message and
the statistics accumulated so far, and re-raise. -/
def run_ingestion (settings : Settings) (env : Env)
    (start_date end_date : Option YMD) (page_size : Option Nat)
    (lookback_days : Option Int) (s0 : RunState) :
    Except Exc (List (String × Nat)) × RunState :=
  let ps := effectivePageSize settings page_size
  let lookback := effectiveLookback settings lookback_days
  match tryBody env start_date end_date ps lookback s0 with
  | (.ok d, s) => (.ok d, s)
  | (.error e, s) =>
    let s1 := { s with conn := s.conn.rollback }
    match s1.runId with
    | some rid =>
      let s2 := (finish_run rid "failed" (excMessage e) s1.stats.as_dict s1).2
      (.error e, s2)
    | Option.none => (.error e, s1)

/-- The initial state of a run over a given committed store. -/
def mkInitialState (store0 : Store) : RunState :=
  ⟨⟨store0, store0⟩, {}, Option.none, 0⟩

/-! ## Concrete fixtures used by witnesses and counterexamples -/

/-- Table lookup by key. -/
def lookupKey {κ ρ : Type} [DecidableEq κ] (k : κ) : List (κ × ρ) → Option ρ
  | [] => Option.none
  | kv :: rest => if kv.1 = k then some kv.2 else lookupKey k rest

/-- A paging stub serving pages of sizes `[2, 1, 0]` with no authoritative
count (the shape of the pagination example). -/
def pagedStubFetch : String → List (String × PyVal) → Except Exc PyVal :=
  fun _ params =>
    match assocFind params "offset" with
    | some (.int 0) => .ok (.list [.dict [("x", .int 1)], .dict [("x", .int 2)]])
    | some (.int 2) => .ok (.list [.dict [("x", .int 3)]])
    | _ => .ok (.list [])

/-- A stub whose single page satisfies the authoritative count. -/
def countStubFetch : String → List (String × PyVal) → Except Exc PyVal :=
  fun _ _ => .ok (.dict [("data", .list [.dict [("x", .int 1)], .dict [("x", .int 2)]]),
    ("count", .int 2)])

/-- A prediction row fixture; `predFixB` differs from `predFixA` only in its
numeric `actual_ppg` field. -/
def predFixA : PyVal := .dict [("player_name", .str "A"), ("actual_ppg", .int 10)]

/-- The same row with the numeric field changed. -/
def predFixB : PyVal := .dict [("player_name", .str "A"), ("actual_ppg", .int 11)]

/-- An empty relational store. -/
def emptyStore : Store := ⟨[], [], [], [], [], [], [], []⟩

/-- Settings fixture (the `.env` defaults of `config.Settings`). -/
def settingsFix : Settings := ⟨500, 1000, 45⟩

/-- An environment whose very first fetch fails after retries. -/
def envFailFix : Env :=
  ⟨fun _ _ => .error (.api "/dates/predictions" (some (.http 500 "boom"))),
   Option.none, ⟨2026, 2, 1⟩⟩

/-- An environment whose source reports no dates at all (a trivially
successful run). -/
def envOkFix : Env := ⟨fun _ _ => .ok (.list []), Option.none, ⟨2026, 2, 1⟩⟩

/-- The claim's "sequence of page responses": an oracle answering every
`(offset, limit)` query with a payload, wrapped as an always-successful
fetch. The page loop always appends its current `offset` and `limit` to the
stripped caller params, so the oracle reads them back from the query
parameters it receives. -/
def serveOracle (serve : Int → Nat → PyVal) :
    String → List (String × PyVal) → Except Exc PyVal :=
  fun _ pp => .ok (serve
    (match assocFind pp "offset" with
     | some (.int n) => n
     | _ => 0)
    (match assocFind pp "limit" with
     | some (.int n) => n.toNat
     | _ => 0))

/-- The pagination contract, written from the claim's words: starting at an
offset, the pages are the responses at the cumulative offsets, in order; the
traversal stops at the first page that is empty (contributing no records),
that satisfies the authoritative count, or that is shorter than the page
size (both contributing their records), and stops defensively once the page
budget is exhausted. The relation records the kept pages and the number of
fetch calls issued. -/
inductive PaginationSpec (serve : Int → Nat → PyVal) (limit : Nat) :
    Nat → Int → List (List PyVal) → Nat → Prop where
  | out_of_fuel (offset : Int) : PaginationSpec serve limit 0 offset [] 0
  | empty_page (fuel : Nat) (offset : Int)
      (h : records (serve offset limit) = []) :
      PaginationSpec serve limit (fuel + 1) offset [] 1
  | count_stop (fuel : Nat) (offset : Int)
      (h1 : records (serve offset limit) ≠ [])
      (h2 : countSatisfied (serve offset limit) offset
        (records (serve offset limit)).length = true) :
      PaginationSpec serve limit (fuel + 1) offset [records (serve offset limit)] 1
  | short_page (fuel : Nat) (offset : Int)
      (h1 : records (serve offset limit) ≠ [])
      (h2 : countSatisfied (serve offset limit) offset
        (records (serve offset limit)).length = false)
      (h3 : (records (serve offset limit)).length < limit) :
      PaginationSpec serve limit (fuel + 1) offset [records (serve offset limit)] 1
  | next_page (fuel : Nat) (offset : Int) (pages : List (List PyVal)) (calls : Nat)
      (h1 : records (serve offset limit) ≠ [])
      (h2 : countSatisfied (serve offset limit) offset
        (records (serve offset limit)).length = false)
      (h3 : ¬ (records (serve offset limit)).length < limit)
      (h4 : PaginationSpec serve limit fuel
        (offset + (records (serve offset limit)).length) pages calls) :
      PaginationSpec serve limit (fuel + 1) offset
        (records (serve offset limit) :: pages) (calls + 1)

/-- A computation preserves the rollback boundary: it never commits, never
touches the run ledger of the working store, and never changes the remembered
run id. Every fetch/persist step between `begin_run` and the final commit has
this property. -/
def PreservesCore {α : Type} (x : M α) : Prop :=
  ∀ s : RunState,
    ((x s).2.conn.committed = s.conn.committed) ∧
    ((x s).2.conn.current.runs = s.conn.current.runs) ∧
    ((x s).2.runId = s.runId)

/-! # Theorems settling the claims -/

/-- **C8.** Numeric parsing and absolute error: `to_float` maps `None`, the
empty string, and any value not convertible to a number (containers,
unparseable strings) to absent, and is total (never raises); the derived
absolute error `absErrorOf` used by every upsert is absent exactly when
either operand is absent, and otherwise is the non-negative magnitude
`|actual − projected|`; projected 20.0 with actual 15.5 yields a stored
absolute error of 4.5 in `upsert_prediction_rows`. -/
theorem to_float_and_abs_error_spec :
    to_float .none = Option.none ∧
    to_float (.str "") = Option.none ∧
    to_float (.str "abc") = Option.none ∧
    (∀ xs, to_float (.list xs) = Option.none) ∧
    (∀ kvs, to_float (.dict kvs) = Option.none) ∧
    (∀ s, parseDecimal s = Option.none → to_float (.str s) = Option.none) ∧
    (∀ a p : Option Rat,
      absErrorOf a p = Option.none ↔ a = Option.none ∨ p = Option.none) ∧
    (∀ a p : Rat, absErrorOf (some a) (some p) = some |a - p| ∧ 0 ≤ |a - p|) ∧
    ((upsert_prediction_rows ⟨2026, 1, 1⟩
        [.dict [("projected_ppg", .float 20), ("actual_ppg", .float 15.5)]] []).map
      (fun p => p.1.map (fun kv => kv.2.absolute_error)) = .ok [some 4.5]) := by
  refine ⟨rfl, rfl, by decide, fun xs => rfl, fun kvs => rfl, ?_, ?_, ?_, ?_⟩
  · intro s h
    show (if s = "" then Option.none else parseDecimal s) = Option.none
    split <;> simp [h]
  · intro a p
    cases a <;> cases p <;> simp [absErrorOf]
  · intro a p
    exact ⟨rfl, abs_nonneg _⟩
  · have hs : stripStr "" = "" := rfl
    have ha : |(15.5 : Rat) - 20| = 4.5 := by
      rw [abs_of_nonpos (by norm_num)]
      norm_num
    have h0 : ((15.5 : Rat) = 0) = False := by norm_num
    have h20 : ((20 : Rat) = 0) = False := by norm_num
    simp [upsert_prediction_rows, List.foldlM, stripChain, pyOr, PyVal.get, assocFind,
      PyVal.truthy, to_float, absErrorOf, upsertAssoc, optStrVal, hs, ha, h0, h20,
      Except.map, Except.bind, bind, pure, Except.pure]

/-- **C8 witness.** The generic non-numeric-string clause instantiated at a
concrete unparseable string. -/
theorem to_float_and_abs_error_spec_witness :
    to_float (.str "n/a") = Option.none :=
  to_float_and_abs_error_spec.2.2.2.2.2.1 "n/a" (by decide)

/-- **C9.** Response-shape normalization: `records` yields the dict elements
of the `"data"` field for a wrapped-list payload, the dict elements of a bare
list, the one-element list containing a bare object, and the empty list for
every other shape. -/
theorem records_shape_spec :
    (∀ kvs xs, assocFind kvs "data" = some (.list xs) →
      records (.dict kvs) = xs.filter PyVal.isDict) ∧
    (∀ xs, records (.list xs) = xs.filter PyVal.isDict) ∧
    (∀ kvs, (∀ xs, assocFind kvs "data" ≠ some (.list xs)) →
      records (.dict kvs) = [.dict kvs]) ∧
    (∀ s, records (.str s) = []) ∧
    records .none = [] ∧
    (∀ b, records (.bool b) = []) ∧
    (∀ n, records (.int n) = []) ∧
    (∀ q, records (.float q) = []) := by
  refine ⟨?_, fun xs => rfl, ?_, fun s => rfl, rfl, fun b => rfl, fun n => rfl,
    fun q => rfl⟩
  · intro kvs xs h
    simp [records, h]
  · intro kvs h
    have hre : records (.dict kvs) =
        (match assocFind kvs "data" with
         | some (.list xs) => xs.filter PyVal.isDict
         | _ => [.dict kvs]) := rfl
    rw [hre]
    cases hx : assocFind kvs "data" with
    | none => rfl
    | some v =>
      cases v with
      | list xs => exact absurd hx (h xs)
      | none => rfl
      | bool b => rfl
      | int n => rfl
      | float q => rfl
      | str s => rfl
      | dict kvs2 => rfl

/-- **C9 witness.** The wrapped-list and bare-object clauses at concrete
payloads: a `"data"` list keeps only its dict elements; a dict without a
`"data"` list is returned as a singleton. -/
theorem records_shape_spec_witness :
    records (.dict [("data", .list [.dict [("a", .int 1)], .int 5])]) =
      [.dict [("a", .int 1)]] ∧
    records (.dict [("a", .int 1)]) = [.dict [("a", .int 1)]] := by
  constructor
  · exact (records_shape_spec.1 [("data", .list [.dict [("a", .int 1)], .int 5])]
      [.dict [("a", .int 1)], .int 5] rfl).trans (by rfl)
  · exact records_shape_spec.2.2.1 _ (fun xs h => by simp [assocFind] at h)

/-- **C2.** Snapshot dedup (code bug): with a present date, re-storing
identical content is a no-op and the store is append-only; but with an absent
date — as `run_ingestion` uses for the accuracy-summary snapshot — the unique
index `(endpoint, snapshot_date, payload_hash)` treats the NULL date as
distinct from every row, `ON CONFLICT` never fires, and the second identical
store inserts a duplicate row, contradicting the claimed invariant. -/
theorem store_raw_snapshot_null_date_bug :
    (∀ e d p t, store_raw_snapshot e (some d) p (store_raw_snapshot e (some d) p t) =
      store_raw_snapshot e (some d) p t) ∧
    (∀ e d p t, store_raw_snapshot e d p t = t ∨
      store_raw_snapshot e d p t = t ++ [⟨e, d, p, stable_hash p⟩]) ∧
    (store_raw_snapshot "/accuracy/daily-summary" Option.none (.int 1)
      (store_raw_snapshot "/accuracy/daily-summary" Option.none (.int 1) [])).length = 2 := by
  refine ⟨?_, ?_, rfl⟩
  · intro e d p t
    by_cases hc : (t.any fun r =>
        r.endpoint == e && nullDistinctEq r.snapshot_date (some d) &&
          r.payload_hash == stable_hash p) = true
    · have h1 : store_raw_snapshot e (some d) p t = t := if_pos hc
      rw [h1, h1]
    · have h1 : store_raw_snapshot e (some d) p t =
          t ++ [⟨e, some d, p, stable_hash p⟩] := if_neg hc
      rw [h1]
      have hc2 : ((t ++ [(⟨e, some d, p, stable_hash p⟩ : SnapRow)]).any fun r =>
          r.endpoint == e && nullDistinctEq r.snapshot_date (some d) &&
            r.payload_hash == stable_hash p) = true := by
        rw [List.any_append]
        simp [nullDistinctEq]
      exact if_pos hc2
  · intro e d p t
    by_cases hc : (t.any fun r =>
        r.endpoint == e && nullDistinctEq r.snapshot_date d &&
          r.payload_hash == stable_hash p) = true
    · exact Or.inl (if_pos hc)
    · exact Or.inr (if_neg hc)

/-- **C10 counterexample.** The claim asserts both projected and actual values
are read through truthiness `or`-chains in `upsert_dfs_projection_rows`; but
`actual_fpts` is read directly, so a present zero actual is stored as `0`
(and the absolute error is computed), not degraded to absent. -/
theorem dfs_actual_zero_stored_counterexample :
    ((upsert_dfs_projection_rows ⟨2026, 1, 1⟩
        [.dict [("proj_fpts", .int 5), ("actual_fpts", .int 0)]] []).map
      (fun p => p.1.map (fun kv => (kv.2.actual_fpts, kv.2.absolute_error))) =
      .ok [(some 0, some 5)]) := by
  have hs : stripStr "" = "" := rfl
  have ha : |(0 : Rat) - 5| = 5 := by
    rw [abs_of_nonpos (by norm_num)]
    norm_num
  simp [upsert_dfs_projection_rows, List.foldlM, stripChain, pyOr, PyVal.get, assocFind,
    PyVal.truthy, to_float, absErrorOf, upsertAssoc, optStrVal, hs, ha,
    Except.map, Except.bind, bind, pure, Except.pure]

/-- **C10 amended.** In `upsert_prediction_rows` the projected and actual
values are read through truthiness `or`-chains over alias keys, so a present
zero primary value with an absent alias is stored absent with an absent
error; in `upsert_dfs_projection_rows` only the projected value is chained
(zero `proj_fpts` with absent alias is stored absent), while `actual_fpts`
is read directly and a present zero is stored as `0`. -/
theorem falsy_zero_alias_fallback_amended :
    (∀ row : PyVal, row.get "actual_points" = .none → row.get "actual_ppg" = .int 0 →
      to_float (pyOr (row.get "actual_ppg") (row.get "actual_points")) = Option.none) ∧
    (∀ row : PyVal, row.get "projected_fpts" = .none → row.get "proj_fpts" = .int 0 →
      to_float (pyOr (row.get "proj_fpts") (row.get "projected_fpts")) = Option.none) ∧
    ((upsert_prediction_rows ⟨2026, 1, 1⟩
        [.dict [("projected_ppg", .int 20), ("actual_ppg", .int 0)]] []).map
      (fun p => p.1.map (fun kv => (kv.2.actual_ppg, kv.2.absolute_error))) =
      .ok [(Option.none, Option.none)]) ∧
    ((upsert_dfs_projection_rows ⟨2026, 1, 1⟩
        [.dict [("proj_fpts", .int 0), ("actual_fpts", .int 7)]] []).map
      (fun p => p.1.map (fun kv => (kv.2.proj_fpts, kv.2.absolute_error))) =
      .ok [(Option.none, Option.none)]) ∧
    ((upsert_dfs_projection_rows ⟨2026, 1, 1⟩
        [.dict [("proj_fpts", .int 5), ("actual_fpts", .int 0)]] []).map
      (fun p => p.1.map (fun kv => kv.2.actual_fpts)) = .ok [some 0]) := by
  refine ⟨?_, ?_, by rfl, by rfl, by rfl⟩
  · intro row h1 h2
    rw [pyOr, h2, h1]
    rfl
  · intro row h1 h2
    rw [pyOr, h2, h1]
    rfl

/-- **C10 witness.** The two chained-read clauses at concrete rows holding a
zero under the primary key and nothing under the alias. -/
theorem falsy_zero_alias_fallback_amended_witness :
    to_float (pyOr ((PyVal.dict [("actual_ppg", .int 0)]).get "actual_ppg")
      ((PyVal.dict [("actual_ppg", .int 0)]).get "actual_points")) = Option.none ∧
    to_float (pyOr ((PyVal.dict [("proj_fpts", .int 0)]).get "proj_fpts")
      ((PyVal.dict [("proj_fpts", .int 0)]).get "projected_fpts")) = Option.none :=
  ⟨falsy_zero_alias_fallback_amended.1 _ rfl rfl,
   falsy_zero_alias_fallback_amended.2.1 _ rfl rfl⟩

/-- **C7 counterexample.** A backtest row whose date fails to parse is *not*
dropped: it is stored (with an absent `slate_date`) and counted, contradicting
the claim that every upsert drops rows with unparseable mandatory dates. -/
theorem backtest_undated_row_stored_counterexample :
    (upsert_backtest_rows "backtest_top3_daily" [.dict [("strategy", .str "s")]] []).map
      (fun p => (p.1.map (fun kv => kv.2.slate_date), p.2)) = .ok ([Option.none], 1) := by
  rfl

/-- **C7 amended.** `upsert_accuracy_rows` drops a row whose date fails to
parse (not stored, not counted) and stores a row with a parseable date
regardless of its other fields; `upsert_backtest_rows` instead stores a row
with an unparseable date anyway, with an absent `slate_date`. -/
theorem mandatory_date_skip_amended :
    (∀ (row : PyVal) (t : List (YMD × AccRow)),
      to_date (pyOr (row.get "game_date") (row.get "date")) = Option.none →
      upsert_accuracy_rows [row] t = .ok (t, 0)) ∧
    (∀ (row : PyVal) (t : List (YMD × AccRow)) (d : YMD),
      to_date (pyOr (row.get "game_date") (row.get "date")) = some d →
      upsert_accuracy_rows [row] t = .ok
        (upsertAssoc d
          (⟨to_float (pyOr (row.get "mean_absolute_error") (row.get "mae")),
            to_float (row.get "rmse"),
            to_float (pyOr (row.get "hit_rate_floor_ceiling") (row.get "hit_rate")),
            to_float (row.get "mean_error"), row⟩ : AccRow)
          (fun _ =>
            ⟨to_float (pyOr (row.get "mean_absolute_error") (row.get "mae")),
             to_float (row.get "rmse"),
             to_float (pyOr (row.get "hit_rate_floor_ceiling") (row.get "hit_rate")),
             to_float (row.get "mean_error"), row⟩) t, 1)) ∧
    (∀ (row : PyVal) (t : List (String × BtRow)) (strat : Option String),
      to_date (pyOr (row.get "slate_date") (row.get "date")) = Option.none →
      stripChain (row.get "strategy") (row.get "strategy_name") = .ok strat →
      upsert_backtest_rows "backtest_top3_daily" [row] t = .ok
        (upsertAssoc
          (stable_hash (.list [.str "backtest_top3_daily", .str "", optStrVal strat, row]))
          (⟨Option.none, strat, row⟩ : BtRow)
          (fun old => { old with strategy := strat, payload := row }) t, 1)) := by
  refine ⟨?_, ?_, ?_⟩
  · intro row t h
    simp [upsert_accuracy_rows, List.foldlM, h, Except.bind, bind, pure, Except.pure]
  · intro row t d h
    simp [upsert_accuracy_rows, List.foldlM, h, Except.bind, bind, pure, Except.pure]
  · intro row t strat h hstrat
    simp [upsert_backtest_rows, List.foldlM, h, hstrat,
      Except.bind, bind, pure, Except.pure]

/-- **C7 witness.** The three clauses at concrete rows: a dateless accuracy
row is skipped; a dated accuracy row with no other fields is stored; a
dateless backtest row is stored and counted. -/
theorem mandatory_date_skip_amended_witness :
    upsert_accuracy_rows [.dict [("mae", .str "x")]] [] = .ok ([], 0) ∧
    upsert_accuracy_rows [.dict [("game_date", .str "2026-01-05")]] [] = .ok
      (upsertAssoc ⟨2026, 1, 5⟩
        (⟨to_float (pyOr ((PyVal.dict [("game_date", .str "2026-01-05")]).get "mean_absolute_error")
            ((PyVal.dict [("game_date", .str "2026-01-05")]).get "mae")),
          to_float ((PyVal.dict [("game_date", .str "2026-01-05")]).get "rmse"),
          to_float (pyOr ((PyVal.dict [("game_date", .str "2026-01-05")]).get "hit_rate_floor_ceiling")
            ((PyVal.dict [("game_date", .str "2026-01-05")]).get "hit_rate")),
          to_float ((PyVal.dict [("game_date", .str "2026-01-05")]).get "mean_error"),
          .dict [("game_date", .str "2026-01-05")]⟩ : AccRow)
        (fun _ =>
          ⟨to_float (pyOr ((PyVal.dict [("game_date", .str "2026-01-05")]).get "mean_absolute_error")
             ((PyVal.dict [("game_date", .str "2026-01-05")]).get "mae")),
           to_float ((PyVal.dict [("game_date", .str "2026-01-05")]).get "rmse"),
           to_float (pyOr ((PyVal.dict [("game_date", .str "2026-01-05")]).get "hit_rate_floor_ceiling")
             ((PyVal.dict [("game_date", .str "2026-01-05")]).get "hit_rate")),
           to_float ((PyVal.dict [("game_date", .str "2026-01-05")]).get "mean_error"),
           .dict [("game_date", .str "2026-01-05")]⟩) [], 1) ∧
    (upsert_backtest_rows "backtest_top3_daily" [.dict [("strategy", .str "s")]] []).map
      (fun p => p.2) = .ok 1 := by
  refine ⟨mandatory_date_skip_amended.1 _ [] rfl, mandatory_date_skip_amended.2.1 _ [] ⟨2026, 1, 5⟩ (by rfl), ?_⟩
  have h := mandatory_date_skip_amended.2.2 (.dict [("strategy", .str "s")]) [] (some "s")
    (by rfl) (by rfl)
  rw [h]
  rfl

/-- An `ON CONFLICT` upsert against a table not containing the key appends a
fresh row. -/
theorem upsertAssoc_fresh {κ ρ : Type} [DecidableEq κ] (k : κ) (ins : ρ) (upd : ρ → ρ)
    (t : List (κ × ρ)) (h : ∀ kv ∈ t, kv.1 ≠ k) :
    upsertAssoc k ins upd t = t ++ [(k, ins)] := by
  induction t with
  | nil => rfl
  | cons kv rest ih =>
    obtain ⟨k', v⟩ := kv
    have hk : k' ≠ k := h (k', v) (List.mem_cons_self _ _)
    simp only [upsertAssoc, if_neg hk, List.cons_append]
    rw [ih (fun x hx => h x (List.mem_cons_of_mem _ hx))]

/-- Re-running an `ON CONFLICT` upsert whose update is idempotent and fixes
the inserted row leaves the table unchanged. -/
theorem upsertAssoc_idem {κ ρ : Type} [DecidableEq κ] (k : κ) (ins : ρ) (upd : ρ → ρ)
    (t : List (κ × ρ)) (h1 : upd ins = ins) (h2 : ∀ v, upd (upd v) = upd v) :
    upsertAssoc k ins upd (upsertAssoc k ins upd t) = upsertAssoc k ins upd t := by
  induction t with
  | nil => simp [upsertAssoc, h1]
  | cons kv rest ih =>
    obtain ⟨k', v⟩ := kv
    by_cases hk : k' = k
    · simp [upsertAssoc, hk, h2]
    · simp [upsertAssoc, hk, ih]

/-- Normal form of `upsert_prediction_rows` on a single row whose name chains
strip successfully. -/
theorem upsert_prediction_rows_single (gd : YMD) (row : PyVal)
    (t : List (String × PredRow)) (pn tm : Option String)
    (hpn : stripChain (row.get "player_name") (row.get "name") = .ok pn)
    (htm : stripChain (row.get "team") (row.get "team_name") = .ok tm) :
    upsert_prediction_rows gd [row] t = .ok
      (upsertAssoc
        (stable_hash (.list [.str gd.isoformat, optStrVal pn, optStrVal tm, row]))
        (⟨gd, pn, tm,
          to_float (pyOr (row.get "projected_ppg")
            (pyOr (row.get "projection_ppg") (row.get "projected_points"))),
          to_float (pyOr (row.get "actual_ppg") (row.get "actual_points")),
          absErrorOf (to_float (pyOr (row.get "actual_ppg") (row.get "actual_points")))
            (to_float (pyOr (row.get "projected_ppg")
              (pyOr (row.get "projection_ppg") (row.get "projected_points")))),
          row⟩ : PredRow)
        (fun old =>
          { old with
            projected_ppg := to_float (pyOr (row.get "projected_ppg")
              (pyOr (row.get "projection_ppg") (row.get "projected_points"))),
            actual_ppg := to_float (pyOr (row.get "actual_ppg") (row.get "actual_points")),
            absolute_error := absErrorOf
              (to_float (pyOr (row.get "actual_ppg") (row.get "actual_points")))
              (to_float (pyOr (row.get "projected_ppg")
                (pyOr (row.get "projection_ppg") (row.get "projected_points")))),
            payload := row }) t, 1) := by
  simp [upsert_prediction_rows, List.foldlM, hpn, htm, Except.bind, bind, pure, Except.pure]

/-- A failed name strip aborts the prediction upsert with that error. -/
theorem upsert_prediction_rows_single_err (gd : YMD) (row : PyVal)
    (t : List (String × PredRow)) (e : Exc)
    (hpn : stripChain (row.get "player_name") (row.get "name") = .error e) :
    upsert_prediction_rows gd [row] t = .error e := by
  simp [upsert_prediction_rows, List.foldlM, hpn, Except.bind, bind, pure, Except.pure]

/-- A failed team strip aborts the prediction upsert with that error. -/
theorem upsert_prediction_rows_single_err2 (gd : YMD) (row : PyVal)
    (t : List (String × PredRow)) (pn : Option String) (e : Exc)
    (hpn : stripChain (row.get "player_name") (row.get "name") = .ok pn)
    (htm : stripChain (row.get "team") (row.get "team_name") = .error e) :
    upsert_prediction_rows gd [row] t = .error e := by
  simp [upsert_prediction_rows, List.foldlM, hpn, htm, Except.bind, bind, pure, Except.pure]

/-- **C1 counterexample.** Upserting a row and then the same row with its
numeric field changed does not leave one stored record: the natural key
hashes the full raw record, so the changed row gets a new key and both
records persist, the original still holding the old value. -/
theorem upsert_changed_numeric_counterexample :
    ((upsert_prediction_rows ⟨2026, 1, 1⟩ [predFixA] []).bind (fun p =>
      upsert_prediction_rows ⟨2026, 1, 1⟩ [predFixB] p.1)).map
      (fun q => (q.1.length, q.1.map (fun kv => kv.2.actual_ppg))) =
      .ok (2, [some 10, some 11]) := by
  rfl

/-- **C1 amended.** The natural key is a pure function of
`(date, name, team, full raw record)`. Upserting the same row content twice
is idempotent: the second application returns the identical table, each
application reports one processed row, and a row keyed fresh is stored
exactly once under its natural key with the row as payload. Upserting the
row again with a changed numeric field does **not** update in place: the
changed record hashes to a different natural key, so a second record is
appended holding the latest value while the original record persists
unchanged under the old key. -/
theorem upsert_idempotence_amended :
    (∀ gd row t t1 n, upsert_prediction_rows gd [row] t = .ok (t1, n) →
      n = 1 ∧ upsert_prediction_rows gd [row] t1 = .ok (t1, 1)) ∧
    (∀ gd row t pn tm,
      stripChain (row.get "player_name") (row.get "name") = .ok pn →
      stripChain (row.get "team") (row.get "team_name") = .ok tm →
      (∀ kv ∈ t, kv.1 ≠
        stable_hash (.list [.str gd.isoformat, optStrVal pn, optStrVal tm, row])) →
      ∃ ins : PredRow, upsert_prediction_rows gd [row] t = .ok
        (t ++ [(stable_hash (.list [.str gd.isoformat, optStrVal pn, optStrVal tm, row]),
          ins)], 1) ∧ ins.payload = row) ∧
    (∀ gd r1 r2 t pn1 tm1 pn2 tm2,
      stripChain (r1.get "player_name") (r1.get "name") = .ok pn1 →
      stripChain (r1.get "team") (r1.get "team_name") = .ok tm1 →
      stripChain (r2.get "player_name") (r2.get "name") = .ok pn2 →
      stripChain (r2.get "team") (r2.get "team_name") = .ok tm2 →
      stable_hash (.list [.str gd.isoformat, optStrVal pn1, optStrVal tm1, r1]) ≠
        stable_hash (.list [.str gd.isoformat, optStrVal pn2, optStrVal tm2, r2]) →
      (∀ kv ∈ t, kv.1 ≠
        stable_hash (.list [.str gd.isoformat, optStrVal pn1, optStrVal tm1, r1])) →
      (∀ kv ∈ t, kv.1 ≠
        stable_hash (.list [.str gd.isoformat, optStrVal pn2, optStrVal tm2, r2])) →
      ∃ v1 v2 : PredRow,
        ((upsert_prediction_rows gd [r1] t).bind (fun p =>
          upsert_prediction_rows gd [r2] p.1)) = .ok
          (t ++ [(stable_hash (.list [.str gd.isoformat, optStrVal pn1, optStrVal tm1, r1]), v1),
            (stable_hash (.list [.str gd.isoformat, optStrVal pn2, optStrVal tm2, r2]), v2)], 1)
          ∧ v1.payload = r1 ∧ v2.payload = r2) := by
  refine ⟨?_, ?_, ?_⟩
  · intro gd row t t1 n h
    cases hpn : stripChain (row.get "player_name") (row.get "name") with
    | error e =>
      rw [upsert_prediction_rows_single_err gd row t e hpn] at h
      cases h
    | ok pn =>
      cases htm : stripChain (row.get "team") (row.get "team_name") with
      | error e =>
        rw [upsert_prediction_rows_single_err2 gd row t pn e hpn htm] at h
        cases h
      | ok tm =>
        rw [upsert_prediction_rows_single gd row t pn tm hpn htm] at h
        injection h with h'
        injection h' with h1 h2
        subst h1
        refine ⟨h2.symm, ?_⟩
        rw [upsert_prediction_rows_single gd row _ pn tm hpn htm]
        rw [upsertAssoc_idem]
        · exact rfl
        · exact fun v => rfl
  · intro gd row t pn tm hpn htm hfresh
    rw [upsert_prediction_rows_single gd row t pn tm hpn htm,
      upsertAssoc_fresh _ _ _ _ hfresh]
    exact ⟨_, rfl, rfl⟩
  · intro gd r1 r2 t pn1 tm1 pn2 tm2 hpn1 htm1 hpn2 htm2 hne hf1 hf2
    rw [upsert_prediction_rows_single gd r1 t pn1 tm1 hpn1 htm1,
      upsertAssoc_fresh _ _ _ _ hf1]
    have hf2' : ∀ kv ∈ t ++
        [(stable_hash (.list [.str gd.isoformat, optStrVal pn1, optStrVal tm1, r1]),
          (⟨gd, pn1, tm1,
            to_float (pyOr (r1.get "projected_ppg")
              (pyOr (r1.get "projection_ppg") (r1.get "projected_points"))),
            to_float (pyOr (r1.get "actual_ppg") (r1.get "actual_points")),
            absErrorOf (to_float (pyOr (r1.get "actual_ppg") (r1.get "actual_points")))
              (to_float (pyOr (r1.get "projected_ppg")
                (pyOr (r1.get "projection_ppg") (r1.get "projected_points")))),
            r1⟩ : PredRow))],
        kv.1 ≠ stable_hash (.list [.str gd.isoformat, optStrVal pn2, optStrVal tm2, r2]) := by
      intro kv hkv
      rcases List.mem_append.mp hkv with hkv | hkv
      · exact hf2 kv hkv
      · rcases List.mem_singleton.mp hkv with rfl
        exact hne
    simp only [Except.bind]
    rw [upsert_prediction_rows_single gd r2 _ pn2 tm2 hpn2 htm2,
      upsertAssoc_fresh _ _ _ _ hf2']
    rw [List.append_assoc]
    exact ⟨_, _, rfl, rfl, rfl⟩

/-- **C1 witness.** The amended clauses at concrete rows: re-upserting
`predFixA` is idempotent; a fresh upsert stores exactly the row; upserting
`predFixB` (the same row with its numeric field changed) alongside leaves
both payloads stored. -/
theorem upsert_idempotence_amended_witness :
    ((upsert_prediction_rows ⟨2026, 1, 1⟩ [predFixA] []).bind (fun p =>
      upsert_prediction_rows ⟨2026, 1, 1⟩ [predFixA] p.1)) =
      upsert_prediction_rows ⟨2026, 1, 1⟩ [predFixA] [] ∧
    (upsert_prediction_rows ⟨2026, 1, 1⟩ [predFixA] []).map
      (fun p => p.1.map (fun kv => kv.2.payload)) = .ok [predFixA] ∧
    ((upsert_prediction_rows ⟨2026, 1, 1⟩ [predFixA] []).bind (fun p =>
      upsert_prediction_rows ⟨2026, 1, 1⟩ [predFixB] p.1)).map
      (fun q => q.1.map (fun kv => kv.2.payload)) = .ok [predFixA, predFixB] := by
  have hA := upsert_prediction_rows_single ⟨2026, 1, 1⟩ predFixA [] (some "A")
    Option.none (by rfl) (by rfl)
  refine ⟨?_, ?_, ?_⟩
  · have h2 := (upsert_idempotence_amended.1 ⟨2026, 1, 1⟩ predFixA [] _ 1 hA).2
    rw [hA]
    simp only [Except.bind]
    exact h2
  · obtain ⟨ins, heq, hpl⟩ := upsert_idempotence_amended.2.1 ⟨2026, 1, 1⟩ predFixA []
      (some "A") Option.none (by rfl) (by rfl)
      (fun kv hkv => absurd hkv (List.not_mem_nil _))
    rw [heq]
    simp [Except.map, hpl]
  · obtain ⟨v1, v2, heq, h1, h2⟩ := upsert_idempotence_amended.2.2 ⟨2026, 1, 1⟩
      predFixA predFixB [] (some "A") Option.none (some "A") Option.none
      (by rfl) (by rfl) (by rfl) (by rfl) (by decide)
      (fun kv hkv => absurd hkv (List.not_mem_nil _))
      (fun kv hkv => absurd hkv (List.not_mem_nil _))
    rw [heq]
    simp [Except.map, h1, h2]

/-- The page loop issues at most as many fetch calls as it has fuel. -/
theorem paginatedGo_calls_le (fetch : String → List (String × PyVal) → Except Exc PyVal)
    (path : String) (params : List (String × PyVal)) (limit : Nat) :
    ∀ (fuel : Nat) (offset : Int) (acc : List PyVal),
      (paginatedGo fetch path params limit fuel offset acc).2 ≤ fuel := by
  intro fuel
  induction fuel with
  | zero =>
    intro offset acc
    simp [paginatedGo]
  | succ n ih =>
    intro offset acc
    cases hf : fetch path
        (params ++ [("offset", PyVal.int offset), ("limit", PyVal.int (limit : Int))]) with
    | error e => simp [paginatedGo, hf]
    | ok payload =>
      by_cases h1 : (records payload).isEmpty
      · simp [paginatedGo, hf, h1]
      · by_cases h2 : countSatisfied payload offset (records payload).length
        · simp [paginatedGo, hf, h1, h2]
        · by_cases h3 : (records payload).length < limit
          · simp [paginatedGo, hf, h1, h2, h3]
          · have := ih (offset + (records payload).length) (acc ++ records payload)
            simp only [paginatedGo, hf, h1, h2, h3]
            simp only [Bool.false_eq_true, if_false, if_neg h2, if_neg h3]
            omega

/-- Lookup skips a prefix that does not bind the key. -/
theorem assocFind_append_of_not_mem (params rest : List (String × PyVal)) (k : String)
    (h : ∀ kv ∈ params, kv.1 ≠ k) :
    assocFind (params ++ rest) k = assocFind rest k := by
  induction params with
  | nil => rfl
  | cons kv ps ih =>
    have hk : kv.1 ≠ k := h kv (List.mem_cons_self _ _)
    simp only [List.cons_append, assocFind, if_neg hk]
    exact ih (fun x hx => h x (List.mem_cons_of_mem _ hx))

/-- The serve oracle answers a page request with the page at the requested
offset and limit. -/
theorem serveOracle_page (serve : Int → Nat → PyVal) (path : String)
    (params : List (String × PyVal)) (limit : Nat) (offset : Int)
    (h : ∀ kv ∈ params, kv.1 ≠ "offset" ∧ kv.1 ≠ "limit") :
    serveOracle serve path
      (params ++ [("offset", PyVal.int offset), ("limit", PyVal.int (limit : Int))]) =
      .ok (serve offset limit) := by
  unfold serveOracle
  rw [assocFind_append_of_not_mem _ _ "offset" (fun kv hkv => (h kv hkv).1),
    assocFind_append_of_not_mem _ _ "limit" (fun kv hkv => (h kv hkv).2)]
  simp [assocFind]

/-- The stripped caller params bind neither `offset` nor `limit`. -/
theorem filtered_params_fresh (params : List (String × PyVal)) :
    ∀ kv ∈ params.filter (fun kv => kv.1 ≠ "offset" ∧ kv.1 ≠ "limit"),
      kv.1 ≠ "offset" ∧ kv.1 ≠ "limit" := by
  intro kv hkv
  exact of_decide_eq_true (List.mem_filter.mp hkv).2

/-- The page loop realizes the pagination contract: for every sequence of
page responses and every loop state there is a (unique, by the guards) page
decomposition related by `PaginationSpec`, and the loop returns the
accumulator followed by the concatenation of those pages, having issued the
related number of calls. -/
theorem paginatedGo_serve (serve : Int → Nat → PyVal) (path : String)
    (params : List (String × PyVal)) (limit : Nat)
    (h : ∀ kv ∈ params, kv.1 ≠ "offset" ∧ kv.1 ≠ "limit") :
    ∀ (fuel : Nat) (offset : Int) (acc : List PyVal),
      ∃ (pages : List (List PyVal)) (calls : Nat),
        PaginationSpec serve limit fuel offset pages calls ∧
        paginatedGo (serveOracle serve) path params limit fuel offset acc =
          (.ok (acc ++ pages.flatten), calls) := by
  intro fuel
  induction fuel with
  | zero =>
    intro offset acc
    exact ⟨[], 0, .out_of_fuel offset, by simp [paginatedGo]⟩
  | succ n ih =>
    intro offset acc
    have hserve := serveOracle_page serve path params limit offset h
    by_cases h1 : (records (serve offset limit)).isEmpty
    · refine ⟨[], 1, .empty_page n offset (List.isEmpty_iff.mp h1), ?_⟩
      simp [paginatedGo, hserve, h1]
    · have h1' : records (serve offset limit) ≠ [] := by
        intro hc
        rw [hc] at h1
        exact h1 rfl
      by_cases h2 : countSatisfied (serve offset limit) offset
          (records (serve offset limit)).length = true
      · refine ⟨[records (serve offset limit)], 1, .count_stop n offset h1' h2, ?_⟩
        simp [paginatedGo, hserve, h1, h2]
      · have h2' : countSatisfied (serve offset limit) offset
            (records (serve offset limit)).length = false := by
          simpa using h2
        by_cases h3 : (records (serve offset limit)).length < limit
        · refine ⟨[records (serve offset limit)], 1, .short_page n offset h1' h2' h3, ?_⟩
          simp [paginatedGo, hserve, h1, h2, h3]
        · obtain ⟨pages, calls, hspec, heq⟩ :=
            ih (offset + (records (serve offset limit)).length)
              (acc ++ records (serve offset limit))
          refine ⟨records (serve offset limit) :: pages, calls + 1,
            .next_page n offset pages calls h1' h2' h3 hspec, ?_⟩
          simp only [paginatedGo, hserve, h1, Bool.false_eq_true, if_false, if_neg h2,
            if_neg h3, heq]
          simp

/-- **C4.** Pagination: for every sequence of page responses,
`paginated_records` realizes the pagination contract `PaginationSpec` — it
returns the concatenation, in order, of the pages served at the cumulative
offsets, stopping at the first page that is empty, satisfies the
authoritative count, or is shorter than the page size, with the related call
count — and for every fetch oracle it issues at most `max_pages` fetch
calls. Concretely: pages of sizes `[2, 1, 0]` with `page_size = 2` and no
authoritative count yield 3 records in exactly 2 calls; an empty first page
yields no records in one call; a page meeting the authoritative count stops
after one call even though it is not short. -/
theorem paginated_records_spec :
    (∀ (serve : Int → Nat → PyVal) (path : String) (params : List (String × PyVal))
      (ps mp : Nat), ∃ (pages : List (List PyVal)) (calls : Nat),
        PaginationSpec serve
          (match assocFind params "limit" with
           | some (.int n) => n.toNat
           | _ => ps) mp
          (match assocFind params "offset" with
           | some (.int n) => n
           | _ => 0) pages calls ∧
        paginated_records (serveOracle serve) path params ps mp =
          (.ok pages.flatten, calls)) ∧
    (∀ fetch path params ps mp, (paginated_records fetch path params ps mp).2 ≤ mp) ∧
    (paginated_records pagedStubFetch "/predictions" [] 2 500 =
      (.ok [.dict [("x", .int 1)], .dict [("x", .int 2)], .dict [("x", .int 3)]], 2)) ∧
    (paginated_records (fun _ _ => .ok (.list [])) "/predictions" [] 2 500 =
      (.ok [], 1)) ∧
    (paginated_records countStubFetch "/predictions" [] 2 500 =
      (.ok [.dict [("x", .int 1)], .dict [("x", .int 2)]], 1)) := by
  refine ⟨?_, ?_, by rfl, by rfl, by rfl⟩
  · intro serve path params ps mp
    obtain ⟨pages, calls, hspec, heq⟩ :=
      paginatedGo_serve serve path
        (params.filter (fun kv => kv.1 ≠ "offset" ∧ kv.1 ≠ "limit"))
        (match assocFind params "limit" with
         | some (.int n) => n.toNat
         | _ => ps)
        (filtered_params_fresh params) mp
        (match assocFind params "offset" with
         | some (.int n) => n
         | _ => 0) []
    refine ⟨pages, calls, hspec, ?_⟩
    unfold paginated_records
    rw [heq]
    simp
  · intro fetch path params ps mp
    exact paginatedGo_calls_le fetch path _ _ mp _ []

/-- When every attempt fails, the retry loop runs through its whole fuel,
sleeps the linear backoff after each non-final attempt, and ends carrying the
last attempt's error. -/
theorem getGo_all_fail (f : Nat → FetchErr) (maxr : Nat) (b : Rat) :
    ∀ (fuel attempt : Nat) (last : Option FetchErr),
      attempt + fuel = maxr + 1 → 1 ≤ attempt → 1 ≤ fuel →
      getGo (fun i => .error (f i)) maxr b attempt fuel last =
        (.error (some (f maxr)), fuel,
          (List.range (fuel - 1)).map (fun j => b * ((attempt + j : Nat) : Rat))) := by
  intro fuel
  induction fuel with
  | zero => intro attempt last h h1 h2; omega
  | succ n ih =>
    intro attempt last h h1 _
    by_cases ha : attempt = maxr
    · have hn : n = 0 := by omega
      subst hn
      subst ha
      simp [getGo]
    · have hn : 1 ≤ n := by omega
      have hrec := ih (attempt + 1) (some (f attempt)) (by omega) (by omega) hn
      simp only [getGo, if_neg ha, hrec]
      obtain ⟨m, rfl⟩ : ∃ m, n = m + 1 := ⟨n - 1, by omega⟩
      refine congrArg (fun l => (Except.error (some (f maxr)), m + 1 + 1, l)) ?_
      have hr : List.range (m + 1) = 0 :: (List.range m).map Nat.succ :=
        List.range_succ_eq_map m
      rw [show m + 1 + 1 - 1 = m + 1 by omega, show m + 1 - 1 = m by omega, hr]
      simp only [List.map_cons, List.map_map]
      refine congrArg₂ (· :: ·) (by norm_num) ?_
      refine List.map_congr_left ?_
      intro j _
      simp only [Function.comp]
      congr 1
      push_cast
      ring

/-- **C5.** Fetch retry: when every attempt fails, `get` makes exactly
`max_retries` attempts with linear backoff delays `base × attempt-number`
after each non-final attempt (none after the last) and raises the wrapper
error carrying the last underlying cause; a successful attempt returns the
parsed body immediately with no further attempts — shown for a first-attempt
success and for a success right after a failure (one backoff slept). -/
theorem get_retry_spec :
    (∀ (f : Nat → FetchErr) (maxr : Nat) (b : Rat) (path : String), 1 ≤ maxr →
      NbaDailyApiClient.get path (fun i => .error (f i)) maxr b =
        (.error (.api path (some (f maxr))), maxr,
          (List.range (maxr - 1)).map (fun j => b * ((1 + j : Nat) : Rat)))) ∧
    (∀ (att : Nat → Except FetchErr PyVal) (v : PyVal) (maxr : Nat) (b : Rat)
      (path : String), 1 ≤ maxr → att 1 = .ok v →
      NbaDailyApiClient.get path att maxr b = (.ok v, 1, [])) ∧
    (∀ (att : Nat → Except FetchErr PyVal) (e : FetchErr) (v : PyVal) (maxr : Nat)
      (b : Rat) (path : String), 2 ≤ maxr → att 1 = .error e → att 2 = .ok v →
      NbaDailyApiClient.get path att maxr b =
        (.ok v, 2, [b * ((1 : Nat) : Rat)])) := by
  refine ⟨?_, ?_, ?_⟩
  · intro f maxr b path hmax
    have h := getGo_all_fail f maxr b maxr 1 Option.none (by omega) (by omega) hmax
    unfold NbaDailyApiClient.get
    rw [h]
  · intro att v maxr b path hmax hatt
    obtain ⟨k, rfl⟩ : ∃ k, maxr = k + 1 := ⟨maxr - 1, by omega⟩
    unfold NbaDailyApiClient.get
    simp only [getGo, hatt]
  · intro att e v maxr b path hmax h1 h2
    obtain ⟨k, rfl⟩ : ∃ k, maxr = k + 2 := ⟨maxr - 2, by omega⟩
    have hne : (1 : Nat) ≠ k + 2 := by omega
    unfold NbaDailyApiClient.get
    simp only [getGo, h1, h2, if_neg hne]

/-- **C5 witness.** The three clauses at a concrete oracle: all attempts fail
(3 attempts, wrapper carries the network error); first attempt succeeds; the
second attempt succeeds after one failure. -/
theorem get_retry_spec_witness :
    NbaDailyApiClient.get "/x" (fun _ => .error (.network "down")) 3 1 =
      (.error (.api "/x" (some (.network "down"))), 3,
        (List.range 2).map (fun j => 1 * ((1 + j : Nat) : Rat))) ∧
    NbaDailyApiClient.get "/x" (fun _ => .ok .none) 3 1 = (.ok .none, 1, []) ∧
    NbaDailyApiClient.get "/x"
      (fun i => if i = 1 then .error (.network "down") else .ok .none) 3 1 =
      (.ok .none, 2, [1 * ((1 : Nat) : Rat)]) := by
  refine ⟨?_, ?_, ?_⟩
  · exact get_retry_spec.1 (fun _ => .network "down") 3 1 "/x" (by decide)
  · exact get_retry_spec.2.1 _ _ 3 1 "/x" (by decide) rfl
  · exact get_retry_spec.2.2 _ (.network "down") _ 3 1 "/x" (by decide) rfl rfl

/-- Date comparison is transitive. -/
theorem lexLt_trans {a b c : YMD} (h1 : YMD.lexLt a b) (h2 : YMD.lexLt b c) :
    YMD.lexLt a c := by
  obtain ⟨ay, am, ad⟩ := a
  obtain ⟨cy, cm, cd⟩ := b
  obtain ⟨ey, em, ed⟩ := c
  simp only [YMD.lexLt] at h1 h2 ⊢
  omega

/-- Date comparison is trichotomous. -/
theorem lexLt_total {a b : YMD} (h1 : ¬ YMD.lexLt a b) (h2 : a ≠ b) :
    YMD.lexLt b a := by
  obtain ⟨ay, am, ad⟩ := a
  obtain ⟨cy, cm, cd⟩ := b
  simp only [ne_eq, YMD.mk.injEq] at h2
  simp only [YMD.lexLt] at h1 ⊢
  omega

/-- Membership through the deduplicating sorted insert. -/
theorem mem_sortedInsertYMD (d x : YMD) (l : List YMD) :
    x ∈ sortedInsertYMD d l ↔ x = d ∨ x ∈ l := by
  induction l with
  | nil =>
    show x ∈ [d] ↔ x = d ∨ x ∈ []
    simp
  | cons y rest ih =>
    have hdef : sortedInsertYMD d (y :: rest) =
        if YMD.lexLt d y then d :: y :: rest
        else if d = y then y :: rest
        else y :: sortedInsertYMD d rest := rfl
    rw [hdef]
    by_cases h1 : YMD.lexLt d y
    · rw [if_pos h1]
      simp [List.mem_cons]
    · rw [if_neg h1]
      by_cases h2 : d = y
      · rw [if_pos h2]
        subst h2
        simp only [List.mem_cons]
        tauto
      · rw [if_neg h2]
        simp only [List.mem_cons, ih]
        tauto

/-- The deduplicating sorted insert preserves strict ascending order. -/
theorem pairwise_sortedInsertYMD (d : YMD) (l : List YMD)
    (h : l.Pairwise YMD.lexLt) : (sortedInsertYMD d l).Pairwise YMD.lexLt := by
  induction l with
  | nil =>
    show ([d] : List YMD).Pairwise YMD.lexLt
    simp
  | cons y rest ih =>
    rcases List.pairwise_cons.mp h with ⟨hy, hrest⟩
    have hdef : sortedInsertYMD d (y :: rest) =
        if YMD.lexLt d y then d :: y :: rest
        else if d = y then y :: rest
        else y :: sortedInsertYMD d rest := rfl
    rw [hdef]
    by_cases h1 : YMD.lexLt d y
    · rw [if_pos h1]
      refine List.pairwise_cons.mpr ⟨?_, h⟩
      intro z hz
      rcases List.mem_cons.mp hz with rfl | hz
      · exact h1
      · exact lexLt_trans h1 (hy z hz)
    · rw [if_neg h1]
      by_cases h2 : d = y
      · rw [if_pos h2]
        exact h
      · rw [if_neg h2]
        refine List.pairwise_cons.mpr ⟨?_, ih hrest⟩
        intro z hz
        rcases (mem_sortedInsertYMD d z rest).mp hz with rfl | hz
        · exact lexLt_total h1 h2
        · exact hy z hz

/-- Membership through the whole `sorted(set(...))` fold. -/
theorem mem_foldl_sortedInsert (raw : List YMD) :
    ∀ (acc : List YMD) (x : YMD),
      x ∈ raw.foldl (fun a d => sortedInsertYMD d a) acc ↔ x ∈ raw ∨ x ∈ acc := by
  induction raw with
  | nil => simp
  | cons d rest ih =>
    intro acc x
    simp only [List.foldl_cons, ih, mem_sortedInsertYMD, List.mem_cons]
    tauto

/-- The `sorted(set(...))` fold yields a strictly ascending list. -/
theorem pairwise_foldl_sortedInsert (raw : List YMD) :
    ∀ acc, acc.Pairwise YMD.lexLt →
      (raw.foldl (fun a d => sortedInsertYMD d a) acc).Pairwise YMD.lexLt := by
  induction raw with
  | nil => intro acc h; exact h
  | cons d rest ih =>
    intro acc h
    exact ih _ (pairwise_sortedInsertYMD d acc h)

/-- Membership in a successful parse of the date strings. -/
theorem mem_parseDateValues :
    ∀ (vs : List String) (raw : List YMD), parseDateValues vs = .ok raw →
      ∀ d, d ∈ raw ↔ ∃ v ∈ vs, v ≠ "" ∧ parseIsoDate (strTake v 10) = some d := by
  intro vs
  induction vs with
  | nil =>
    intro raw h d
    cases h
    simp
  | cons v rest ih =>
    intro raw h d
    by_cases hv : v = ""
    · subst hv
      simp only [parseDateValues, if_pos rfl] at h
      rw [ih raw h d]
      simp
    · simp only [parseDateValues, if_neg hv] at h
      cases hp : parseIsoDate (strTake v 10) with
      | none => rw [hp] at h; cases h
      | some d0 =>
        rw [hp] at h
        cases hr : parseDateValues rest with
        | error e => rw [hr] at h; cases h
        | ok ds =>
          rw [hr] at h
          simp only [Except.map] at h
          cases h
          simp only [List.mem_cons, ih ds hr d]
          constructor
          · rintro (rfl | ⟨w, hw, hw1, hw2⟩)
            · exact ⟨v, by simp, hv, hp⟩
            · exact ⟨w, by simp [hw], hw1, hw2⟩
          · rintro ⟨w, hw, hw1, hw2⟩
            rcases hw with rfl | hw
            · left
              rw [hp] at hw2
              injection hw2 with hh
              exact hh.symm
            · right
              exact ⟨w, hw, hw1, hw2⟩

/-- **C6.** `filter_dates` returns the deduplicated, strictly ascending list
of the parsed input dates restricted to `[start, end]` (an absent bound is
unbounded; with no explicit start but a lookback of `N` days the lower bound
is today minus `N`); an empty input yields an empty result regardless of
bounds; and the concrete example `["2026-01-01","2026-01-10","2026-01-20"]`
with start `2026-01-05`, end `2026-01-15`, no lookback yields exactly
`[2026-01-10]`. -/
theorem filter_dates_spec :
    (∀ (vs : List String) (sd ed : Option YMD) (lb : Option Int) (today : YMD)
      (out : List YMD), filter_dates vs sd ed lb today = .ok out →
      out.Pairwise YMD.lexLt ∧
      (∀ d, d ∈ out ↔
        (∃ v ∈ vs, v ≠ "" ∧ parseIsoDate (strTake v 10) = some d) ∧
        (∀ s, sd = some s → s.toOrd ≤ d.toOrd) ∧
        (sd = Option.none → ∀ n, lb = some n → today.toOrd - n ≤ d.toOrd) ∧
        (∀ e, ed = some e → d.toOrd ≤ e.toOrd))) ∧
    (∀ sd ed lb today, filter_dates [] sd ed lb today = .ok []) ∧
    (∀ today, filter_dates ["2026-01-01", "2026-01-10", "2026-01-20"]
      (some ⟨2026, 1, 5⟩) (some ⟨2026, 1, 15⟩) Option.none today =
      .ok [⟨2026, 1, 10⟩]) := by
  refine ⟨?_, fun sd ed lb today => rfl, fun today => by rfl⟩
  intro vs sd ed lb today out h
  unfold filter_dates at h
  cases hr : parseDateValues vs with
  | error e =>
    rw [hr] at h
    cases h
  | ok raw =>
    rw [hr] at h
    simp only [bind, Except.bind, pure, Except.pure] at h
    set parsed := raw.foldl (fun a d => sortedInsertYMD d a) [] with hparsed
    by_cases hemp : parsed.isEmpty
    · rw [if_pos hemp] at h
      cases h
      have hpnil : parsed = [] := List.isEmpty_iff.mp hemp
      refine ⟨List.Pairwise.nil, ?_⟩
      intro d
      simp only [List.not_mem_nil, false_iff]
      rintro ⟨⟨v, hv, hv1, hv2⟩, -⟩
      have hdraw : d ∈ raw := (mem_parseDateValues vs raw hr d).mpr ⟨v, hv, hv1, hv2⟩
      have : d ∈ parsed := by
        rw [hparsed, mem_foldl_sortedInsert]
        exact Or.inl hdraw
      rw [hpnil] at this
      exact List.not_mem_nil d this
    · rw [if_neg hemp] at h
      cases h
      refine ⟨List.Pairwise.filter _
        (pairwise_foldl_sortedInsert raw [] List.Pairwise.nil), ?_⟩
      intro d
      rw [List.mem_filter]
      rw [hparsed, mem_foldl_sortedInsert]
      simp only [List.not_mem_nil, or_false]
      rw [mem_parseDateValues vs raw hr d]
      constructor
      · rintro ⟨hmem, hg⟩
        refine ⟨hmem, ?_, ?_, ?_⟩
        · intro s hs
          subst hs
          simp only [Bool.and_eq_true, decide_eq_true_eq] at hg
          exact hg.1
        · rintro rfl n hn
          subst hn
          simp only [Bool.and_eq_true, decide_eq_true_eq] at hg
          exact hg.1
        · intro e he
          subst he
          simp only [Bool.and_eq_true, decide_eq_true_eq] at hg
          exact hg.2
      · rintro ⟨hmem, hs, hlb, he⟩
        refine ⟨hmem, ?_⟩
        rcases sd with _ | s
        · rcases lb with _ | n
          · rcases ed with _ | e
            · simp
            · simp only [Bool.and_eq_true, decide_eq_true_eq]
              exact ⟨trivial, he e rfl⟩
          · rcases ed with _ | e
            · simp only [Bool.and_eq_true, decide_eq_true_eq]
              exact ⟨hlb rfl n rfl, trivial⟩
            · simp only [Bool.and_eq_true, decide_eq_true_eq]
              exact ⟨hlb rfl n rfl, he e rfl⟩
        · rcases ed with _ | e
          · simp only [Bool.and_eq_true, decide_eq_true_eq]
            exact ⟨hs s rfl, trivial⟩
          · simp only [Bool.and_eq_true, decide_eq_true_eq]
            exact ⟨hs s rfl, he e rfl⟩

/-- **C6 witness.** The general clause instantiated at the concrete example:
the singleton result is ascending and contains exactly `2026-01-10`. -/
theorem filter_dates_spec_witness :
    ([⟨2026, 1, 10⟩] : List YMD).Pairwise YMD.lexLt ∧
    (∀ d, d ∈ ([⟨2026, 1, 10⟩] : List YMD) ↔
      (∃ v ∈ ["2026-01-01", "2026-01-10", "2026-01-20"], v ≠ "" ∧
        parseIsoDate (strTake v 10) = some d) ∧
      (∀ s, (some ⟨2026, 1, 5⟩ : Option YMD) = some s → s.toOrd ≤ d.toOrd) ∧
      ((some ⟨2026, 1, 5⟩ : Option YMD) = Option.none →
        ∀ n, (Option.none : Option Int) = some n → (⟨2026, 2, 1⟩ : YMD).toOrd - n ≤ d.toOrd) ∧
      (∀ e, (some ⟨2026, 1, 15⟩ : Option YMD) = some e → d.toOrd ≤ e.toOrd)) :=
  filter_dates_spec.1 ["2026-01-01", "2026-01-10", "2026-01-20"]
    (some ⟨2026, 1, 5⟩) (some ⟨2026, 1, 15⟩) Option.none ⟨2026, 2, 1⟩
    [⟨2026, 1, 10⟩] (by rfl)

/-- `mPure` preserves the rollback boundary. -/
theorem pres_mPure {α : Type} (a : α) : PreservesCore (mPure a) :=
  fun _ => ⟨rfl, rfl, rfl⟩

/-- `mThrow` preserves the rollback boundary (the state at the raise point is
kept, but nothing was committed). -/
theorem pres_mThrow {α : Type} (e : Exc) : PreservesCore (mThrow (α := α) e) :=
  fun _ => ⟨rfl, rfl, rfl⟩

/-- A lifted pure step preserves the rollback boundary. -/
theorem pres_liftE {α : Type} (x : Except Exc α) : PreservesCore (liftE x) :=
  fun _ => ⟨rfl, rfl, rfl⟩

/-- A stats update preserves the rollback boundary. -/
theorem pres_mStats (f : IngestionStats → IngestionStats) :
    PreservesCore (mStats f) :=
  fun _ => ⟨rfl, rfl, rfl⟩

/-- Sequencing preserves the rollback boundary. -/
theorem pres_mBind {α β : Type} {x : M α} {f : α → M β} (hx : PreservesCore x)
    (hf : ∀ a, PreservesCore (f a)) : PreservesCore (mBind x f) := by
  intro s
  have hx' := hx s
  unfold mBind
  cases hxs : x s with
  | mk r s' =>
    rw [hxs] at hx'
    cases r with
    | error e => exact hx'
    | ok a =>
      have hf' := hf a s'
      exact ⟨hf'.1.trans hx'.1, hf'.2.1.trans hx'.2.1, hf'.2.2.trans hx'.2.2⟩

/-- A store write preserves the rollback boundary as long as the table
operation leaves the run ledger alone. -/
theorem pres_dbWrite {α : Type} (env : Env) (f : Store → Except Exc (Store × α))
    (hf : ∀ st st' a, f st = .ok (st', a) → st'.runs = st.runs) :
    PreservesCore (dbWrite env f) := by
  intro s
  unfold dbWrite
  split
  · split
    · exact ⟨rfl, rfl, rfl⟩
    · split
      · next st a heq => exact ⟨rfl, hf _ _ _ heq, rfl⟩
      · exact ⟨rfl, rfl, rfl⟩
  · split
    · next st a heq => exact ⟨rfl, hf _ _ _ heq, rfl⟩
    · exact ⟨rfl, rfl, rfl⟩

/-- The 404-tolerant singleton fetch preserves the rollback boundary. -/
theorem pres_getOrNone (env : Env) (path : String) :
    PreservesCore (getOrNone env path) := by
  unfold getOrNone
  cases env.fetch path [] with
  | ok v => exact pres_mPure _
  | error e =>
    show PreservesCore (if is404 e = true then mPure Option.none else mThrow e)
    by_cases h : is404 e = true
    · rw [if_pos h]
      exact pres_mPure _
    · rw [if_neg h]
      exact pres_mThrow _

/-- The predictions cycle preserves the rollback boundary. -/
theorem pres_predLoop (env : Env) (ps : Nat) :
    ∀ ds : List YMD, PreservesCore (predLoop env ps ds) := by
  intro ds
  induction ds with
  | nil => exact pres_mPure _
  | cons gd rest ih =>
    simp only [predLoop]
    refine pres_mBind (pres_liftE _) (fun rows => ?_)
    refine pres_mBind (pres_dbWrite env _ ?_) (fun _ => ?_)
    · intro st st' a h
      simp only [Except.ok.injEq, Prod.mk.injEq] at h
      rw [← h.1]
    · refine pres_mBind (pres_dbWrite env _ ?_) (fun n => ?_)
      · intro st st' a h
        cases hop : upsert_prediction_rows gd rows st.predictions with
        | error e => rw [hop] at h; simp [Except.map] at h
        | ok p =>
          rw [hop] at h
          simp only [Except.map, Except.ok.injEq, Prod.mk.injEq] at h
          rw [← h.1]
      · exact pres_mBind (pres_mStats _) (fun _ => ih)

/-- The accuracy cycle preserves the rollback boundary. -/
theorem pres_accuracyStep (env : Env) (prediction_dates : List YMD) :
    PreservesCore (accuracyStep env prediction_dates) := by
  cases prediction_dates with
  | nil => exact pres_mPure _
  | cons d0 ds =>
    simp only [accuracyStep]
    refine pres_mBind (pres_liftE _) (fun payload => ?_)
    refine pres_mBind (pres_dbWrite env _ ?_) (fun _ => ?_)
    · intro st st' a h
      simp only [Except.ok.injEq, Prod.mk.injEq] at h
      rw [← h.1]
    · refine pres_mBind (pres_dbWrite env _ ?_) (fun n => ?_)
      · intro st st' a h
        cases hop : upsert_accuracy_rows (records payload) st.accuracy with
        | error e => rw [hop] at h; simp [Except.map] at h
        | ok p =>
          rw [hop] at h
          simp only [Except.map, Except.ok.injEq, Prod.mk.injEq] at h
          rw [← h.1]
      · exact pres_mStats _

/-- The DFS cycle preserves the rollback boundary. -/
theorem pres_dfsLoop (env : Env) (ps : Nat) :
    ∀ ds : List YMD, PreservesCore (dfsLoop env ps ds) := by
  intro ds
  induction ds with
  | nil => exact pres_mPure _
  | cons sd rest ih =>
    simp only [dfsLoop]
    refine pres_mBind (pres_getOrNone env _) (fun sp => ?_)
    refine pres_mBind ?_ (fun _ => ?_)
    · cases sp with
      | none => exact pres_mPure _
      | some payload =>
        show PreservesCore (if payload.truthy = true then _ else mPure ())
        by_cases ht : payload.truthy = true
        · rw [if_pos ht]
          refine pres_mBind (pres_dbWrite env _ ?_) (fun _ => ?_)
          · intro st st' a h
            simp only [Except.ok.injEq, Prod.mk.injEq] at h
            rw [← h.1]
          · refine pres_mBind (pres_dbWrite env _ ?_) (fun n => ?_)
            · intro st st' a h
              cases hop : upsert_dfs_slate_row sd payload st.dfsSlates with
              | error e => rw [hop] at h; simp [Except.map] at h
              | ok p =>
                rw [hop] at h
                simp only [Except.map, Except.ok.injEq, Prod.mk.injEq] at h
                rw [← h.1]
            · exact pres_mStats _
        · rw [if_neg ht]
          exact pres_mPure _
    · refine pres_mBind (pres_liftE _) (fun projection_rows => ?_)
      refine pres_mBind (pres_dbWrite env _ ?_) (fun _ => ?_)
      · intro st st' a h
        simp only [Except.ok.injEq, Prod.mk.injEq] at h
        rw [← h.1]
      · refine pres_mBind (pres_dbWrite env _ ?_) (fun n => ?_)
        · intro st st' a h
          cases hop : upsert_dfs_projection_rows sd projection_rows st.dfsProjections with
          | error e => rw [hop] at h; simp [Except.map] at h
          | ok p =>
            rw [hop] at h
            simp only [Except.map, Except.ok.injEq, Prod.mk.injEq] at h
            rw [← h.1]
        · exact pres_mBind (pres_mStats _) (fun _ => ih)

/-- The backtest cycle preserves the rollback boundary. -/
theorem pres_backtestLoop (env : Env) (ps : Nat) :
    ∀ ds : List YMD, PreservesCore (backtestLoop env ps ds) := by
  intro ds
  induction ds with
  | nil => exact pres_mPure _
  | cons bd rest ih =>
    simp only [backtestLoop]
    refine pres_mBind (pres_liftE _) (fun top3_rows => ?_)
    refine pres_mBind (pres_dbWrite env _ ?_) (fun _ => ?_)
    · intro st st' a h
      simp only [Except.ok.injEq, Prod.mk.injEq] at h
      rw [← h.1]
    · refine pres_mBind (pres_dbWrite env _ ?_) (fun n => ?_)
      · intro st st' a h
        cases hop : upsert_backtest_rows "backtest_top3_daily" top3_rows st.backtestTop3 with
        | error e => rw [hop] at h; simp [Except.map] at h
        | ok p =>
          rw [hop] at h
          simp only [Except.map, Except.ok.injEq, Prod.mk.injEq] at h
          rw [← h.1]
      · refine pres_mBind (pres_mStats _) (fun _ => ?_)
        refine pres_mBind (pres_liftE _) (fun portfolio_rows => ?_)
        refine pres_mBind (pres_dbWrite env _ ?_) (fun _ => ?_)
        · intro st st' a h
          simp only [Except.ok.injEq, Prod.mk.injEq] at h
          rw [← h.1]
        · refine pres_mBind (pres_dbWrite env _ ?_) (fun n2 => ?_)
          · intro st st' a h
            cases hop : upsert_backtest_rows "backtest_portfolio_daily" portfolio_rows
                st.backtestPortfolio with
            | error e => rw [hop] at h; simp [Except.map] at h
            | ok p =>
              rw [hop] at h
              simp only [Except.map, Except.ok.injEq, Prod.mk.injEq] at h
              rw [← h.1]
          · exact pres_mBind (pres_mStats _) (fun _ => ih)

/-- The whole fetch-and-persist phase preserves the rollback boundary. -/
theorem pres_mainWork (env : Env) (sd ed : Option YMD) (ps : Nat) (lookback : Int) :
    PreservesCore (mainWork env sd ed ps lookback) := by
  unfold mainWork
  refine pres_mBind (pres_liftE _) (fun pv => ?_)
  refine pres_mBind (pres_liftE _) (fun prediction_dates => ?_)
  refine pres_mBind (pres_liftE _) (fun dv => ?_)
  refine pres_mBind (pres_liftE _) (fun dfs_dates => ?_)
  refine pres_mBind (pres_liftE _) (fun bv => ?_)
  refine pres_mBind (pres_liftE _) (fun backtest_dates => ?_)
  refine pres_mBind (pres_predLoop env ps prediction_dates) (fun _ => ?_)
  refine pres_mBind (pres_accuracyStep env prediction_dates) (fun _ => ?_)
  exact pres_mBind (pres_dfsLoop env ps dfs_dates) (fun _ => pres_backtestLoop env ps backtest_dates)

/-- Bound for the fold computing the next serial run id. -/
theorem foldl_max_le (runs : List RunRow) :
    ∀ acc : Nat, acc ≤ runs.foldl (fun m r => max m r.run_id) acc ∧
      ∀ r ∈ runs, r.run_id ≤ runs.foldl (fun m r => max m r.run_id) acc := by
  induction runs with
  | nil => intro acc; exact ⟨Nat.le_refl acc, by simp⟩
  | cons r rest ih =>
    intro acc
    have h := ih (max acc r.run_id)
    refine ⟨le_trans (Nat.le_max_left _ _) h.1, ?_⟩
    intro r' hr'
    rcases List.mem_cons.mp hr' with rfl | hr'
    · exact le_trans (Nat.le_max_right _ _) h.1
    · exact h.2 r' hr'

/-- Every existing run id is smaller than the next serial id. -/
theorem run_id_lt_nextRunId (runs : List RunRow) :
    ∀ r ∈ runs, r.run_id < nextRunId runs := by
  intro r hr
  have h := (foldl_max_le runs 0).2 r hr
  unfold nextRunId
  omega

/-- Finishing a freshly appended run row updates exactly that row. -/
theorem finishRuns_fresh (runs : List RunRow) (rid : Nat) (st0 : String)
    (m0 : Option String) (d0 : List (String × Nat)) (status msg : String)
    (stats : List (String × Nat)) (h : ∀ r ∈ runs, r.run_id ≠ rid) :
    finishRuns (runs ++ [⟨rid, st0, m0, d0⟩]) rid status msg stats =
      runs ++ [⟨rid, status, some msg, stats⟩] := by
  unfold finishRuns
  rw [List.map_append]
  congr 1
  · have hid : ∀ r ∈ runs,
        (fun r : RunRow => if r.run_id = rid
          then { r with status := status, message := some msg, statsMap := stats }
          else r) r = id r :=
      fun r hr => if_neg (h r hr)
    rw [List.map_congr_left hid, List.map_id]
  · simp

/-- The `try` block evaluated from a fresh initial state: schema init and the
run-row insert compute definitionally, leaving the main work followed by the
commit-and-finalize steps on the post-`begin_run` state. -/
theorem tryBody_eq (env : Env) (sd ed : Option YMD) (ps : Nat) (lookback : Int)
    (store0 : Store) :
    tryBody env sd ed ps lookback (mkInitialState store0) =
      mBind (mainWork env sd ed ps lookback) (fun _ =>
        mBind mCommit (fun _ =>
          mBind (fun s => (.ok s.stats.as_dict, s)) (fun d =>
            mBind (finish_run (nextRunId store0.runs) "success" "Ingestion completed." d)
              (fun _ => mPure d))))
        ⟨⟨{ store0 with runs := store0.runs ++
              [⟨nextRunId store0.runs, "running", Option.none, []⟩] },
           { store0 with runs := store0.runs ++
              [⟨nextRunId store0.runs, "running", Option.none, []⟩] }⟩,
         {}, some (nextRunId store0.runs), 0⟩ := rfl

/-- **C3.** Run failure and success semantics: starting `run_ingestion` from
any committed store (with both fetch failures and injected persistence
failures possible through the environment), if the run ends in an exception —
which it re-raises, the hypothesis of the first clause — then all uncommitted
data writes are rolled back (every data table and the snapshot ledger of the
committed store are exactly as before the run), and the run ledger gains
exactly one row, the run's own, updated once from `running` to `failed`
carrying the exception's message and the statistics accumulated up to the
failure; on success the run returns its statistics, everything is committed
(working store equals committed store), and the run row is updated once from
`running` to `success`. No other transition of the run row exists: the final
ledger is the old ledger plus that one row in a terminal state. -/
theorem run_failure_success_semantics (settings : Settings) (env : Env)
    (sd ed : Option YMD) (ps : Option Nat) (lb : Option Int) (store0 : Store) :
    ∀ (res : Except Exc (List (String × Nat))) (s : RunState),
      run_ingestion settings env sd ed ps lb (mkInitialState store0) = (res, s) →
      (∀ e, res = .error e →
        s.conn.committed.dataPart = store0.dataPart ∧
        s.conn.committed.runs = store0.runs ++
          [⟨nextRunId store0.runs, "failed", some (excMessage e), s.stats.as_dict⟩] ∧
        s.conn.current = s.conn.committed) ∧
      (∀ d, res = .ok d →
        d = s.stats.as_dict ∧
        s.conn.current = s.conn.committed ∧
        s.conn.committed.runs = store0.runs ++
          [⟨nextRunId store0.runs, "success", some "Ingestion completed.", d⟩]) := by
  intro res s hrun
  have hfresh : ∀ r ∈ store0.runs, r.run_id ≠ nextRunId store0.runs :=
    fun r hr => Nat.ne_of_lt (run_id_lt_nextRunId store0.runs r hr)
  simp only [run_ingestion] at hrun
  rw [tryBody_eq] at hrun
  simp only [mBind] at hrun
  cases hmw : mainWork env sd ed (effectivePageSize settings ps)
      (effectiveLookback settings lb)
      ⟨⟨{ store0 with runs := store0.runs ++
            [⟨nextRunId store0.runs, "running", Option.none, []⟩] },
         { store0 with runs := store0.runs ++
            [⟨nextRunId store0.runs, "running", Option.none, []⟩] }⟩,
       {}, some (nextRunId store0.runs), 0⟩ with
  | mk r sM =>
    have hpres := pres_mainWork env sd ed (effectivePageSize settings ps)
      (effectiveLookback settings lb)
      ⟨⟨{ store0 with runs := store0.runs ++
            [⟨nextRunId store0.runs, "running", Option.none, []⟩] },
         { store0 with runs := store0.runs ++
            [⟨nextRunId store0.runs, "running", Option.none, []⟩] }⟩,
       {}, some (nextRunId store0.runs), 0⟩
    rw [hmw] at hpres hrun
    obtain ⟨hcom, hruns, hrid⟩ := hpres
    dsimp only at hcom hruns hrid
    cases r with
    | error e0 =>
      try dsimp only at hrun
      rw [hrid] at hrun
      try dsimp only at hrun
      simp only [finish_run, Conn.rollback, Conn.commit] at hrun
      try dsimp only at hrun
      rw [hcom] at hrun
      rw [finishRuns_fresh store0.runs (nextRunId store0.runs) "running" Option.none []
        "failed" (excMessage e0) sM.stats.as_dict hfresh] at hrun
      injection hrun with hres hs
      subst hs
      constructor
      · intro e he
        rw [← hres] at he
        injection he with hee
        subst hee
        exact ⟨rfl, rfl, rfl⟩
      · intro d hd
        rw [← hres] at hd
        cases hd
    | ok u =>
      try dsimp only at hrun
      simp only [mBind, mCommit, finish_run, mPure, Conn.commit] at hrun
      try dsimp only at hrun
      rw [hruns] at hrun
      rw [finishRuns_fresh store0.runs (nextRunId store0.runs) "running" Option.none []
        "success" "Ingestion completed." sM.stats.as_dict hfresh] at hrun
      injection hrun with hres hs
      subst hs
      constructor
      · intro e he
        rw [← hres] at he
        cases he
      · intro d hd
        rw [← hres] at hd
        injection hd with hdd
        subst hdd
        exact ⟨rfl, rfl, rfl⟩

/-- **C3 witness.** The two clauses at concrete runs over an empty store: an
environment whose first fetch fails after retries yields a rolled-back store
whose ledger holds exactly the failed run with the wrapper's message; an
environment reporting no dates yields a committed store whose ledger holds
exactly the successful run with the zero statistics. -/
theorem run_failure_success_semantics_witness :
    ((run_ingestion settingsFix envFailFix Option.none Option.none Option.none Option.none
        (mkInitialState emptyStore)).2.conn.committed.dataPart = emptyStore.dataPart ∧
      (run_ingestion settingsFix envFailFix Option.none Option.none Option.none Option.none
        (mkInitialState emptyStore)).2.conn.committed.runs = emptyStore.runs ++
        [⟨nextRunId emptyStore.runs, "failed",
          some (excMessage (.api "/dates/predictions" (some (.http 500 "boom")))),
          (run_ingestion settingsFix envFailFix Option.none Option.none Option.none Option.none
            (mkInitialState emptyStore)).2.stats.as_dict⟩] ∧
      (run_ingestion settingsFix envFailFix Option.none Option.none Option.none Option.none
        (mkInitialState emptyStore)).2.conn.current =
        (run_ingestion settingsFix envFailFix Option.none Option.none Option.none Option.none
          (mkInitialState emptyStore)).2.conn.committed) ∧
    (IngestionStats.as_dict {} =
        (run_ingestion settingsFix envOkFix Option.none Option.none Option.none Option.none
          (mkInitialState emptyStore)).2.stats.as_dict ∧
      (run_ingestion settingsFix envOkFix Option.none Option.none Option.none Option.none
        (mkInitialState emptyStore)).2.conn.current =
        (run_ingestion settingsFix envOkFix Option.none Option.none Option.none Option.none
          (mkInitialState emptyStore)).2.conn.committed ∧
      (run_ingestion settingsFix envOkFix Option.none Option.none Option.none Option.none
        (mkInitialState emptyStore)).2.conn.committed.runs = emptyStore.runs ++
        [⟨nextRunId emptyStore.runs, "success", some "Ingestion completed.",
          IngestionStats.as_dict {}⟩]) := by
  constructor
  · exact (run_failure_success_semantics settingsFix envFailFix Option.none Option.none
      Option.none Option.none emptyStore _ _ rfl).1
      (.api "/dates/predictions" (some (.http 500 "boom"))) (by rfl)
  · exact (run_failure_success_semantics settingsFix envOkFix Option.none Option.none
      Option.none Option.none emptyStore _ _ rfl).2 (IngestionStats.as_dict {}) (by rfl)
